import Mathlib

/-!
# Verification of the AdWords online allocation program (`adwords.py`)

This file gives a shallow embedding of the program in `src/adwords.py` and
settles the claims of the specification against it.

Modelling conventions:

* pandas DataFrames become Lean lists of structure rows, in row order.
  `bidder_df` (index `Keyword`, columns `Advertiser`, `Bid Value`) becomes
  `List BidRow`; `bidder_budget_df` (index `Advertiser`, column `Budget`)
  becomes `List BudgetRow`.
* money amounts (bids, budgets, revenues) are modelled as rationals `ℚ`;
  the MSVV scaled bids, which involve `math.exp`, are modelled as reals `ℝ`.
* pandas label lookups (`.loc`) become `List.find?` on the corresponding
  key; a lookup of a missing label raises `KeyError` in Python, which is
  modelled with `Except Err`.  Likewise `bidder_df.loc[[query]]` raises
  `KeyError` when the keyword is absent from the index.  Division at line
  131 is on float64 operands, so a zero denominator yields nan/inf with a
  `RuntimeWarning` and the program continues; the embedding computes the
  scale value with Lean's total division (`x / 0 = 0`), and every statement
  that depends on scale values carries a non-zero-initial-budget hypothesis,
  confining conclusions to the nan-free regime (where a nan key would make
  the source's sort order unspecified).
* `find_interested_bidder_budget_df` calls `reset_index()`, which replaces
  the `Advertiser` index by a *positional* integer index and keeps those
  positional labels through the subsequent boolean filter.  This is modelled
  by `LabeledBudgetRow`, whose `label` field is the row's position in
  `bidder_budget_df`.  The lookup `interested_bidder_budget_df.loc[bidder]`
  in `msvv` (line 142 of the source) therefore searches that positional
  `label`, not the advertiser id - exactly as pandas does.
* Python's stable `sort`/`sort_values` becomes `List.insertionSort r` with
  `r a b` the reflexive total preorder "`a` may come before `b`"; for the
  multi-key sorts of `greedy`/`balance` (unique sort keys) the result is
  the unique sorted order, identical to pandas' output.
* in-place mutation of `bidder_budget_df` and of the caller's query list is
  modelled by explicit state passing: `adwords` returns the final budget
  table next to the revenue, and `competitive_ratio` returns the final
  (permuted) query list and budget table next to the ratio.
-/

/-- Python exceptions that the translated code can raise. -/
inductive Err where
  | keyError : Err
  | indexError : Err
  | nameError : Err
deriving DecidableEq

/-- One row of `bidder_df`: index `Keyword`, columns `Advertiser`, `Bid Value`. -/
structure BidRow where
  keyword : String
  advertiser : Nat
  bid : ℚ
deriving DecidableEq

/-- One row of `bidder_budget_df`: index `Advertiser`, column `Budget`. -/
structure BudgetRow where
  advertiser : Nat
  budget : ℚ
deriving DecidableEq

/-- One row of `bidder_budget_df.reset_index()` after the boolean filter of
`find_interested_bidder_budget_df`: `label` is the positional index label the
row kept from `reset_index()`, the columns are `Advertiser`, `Budget`. -/
structure LabeledBudgetRow where
  label : Nat
  advertiser : Nat
  budget : ℚ
deriving DecidableEq

abbrev BidderDf := List BidRow
abbrev BudgetDf := List BudgetRow

instance {ε α : Type} [DecidableEq ε] [DecidableEq α] : DecidableEq (Except ε α) := fun x y =>
  match x, y with
  | Except.error a, Except.error b =>
    if h : a = b then isTrue (by rw [h]) else isFalse (by intro hc; cases hc; exact h rfl)
  | Except.ok a, Except.ok b =>
    if h : a = b then isTrue (by rw [h]) else isFalse (by intro hc; cases hc; exact h rfl)
  | Except.error _, Except.ok _ => isFalse (by intro hc; cases hc)
  | Except.ok _, Except.error _ => isFalse (by intro hc; cases hc)

/-- `.loc` lookup: `some` row or a Python exception. -/
def liftOpt (e : Err) : Option α → Except Err α
  | none => Except.error e
  | some a => Except.ok a

/-- The budget recorded for advertiser `a` (`bidder_budget_df.loc[a].iloc[0]`);
`0` as a don't-care value when `a` has no row. -/
def budgetOf (bdf : BudgetDf) (a : Nat) : ℚ :=
  match bdf.find? (fun r => r.advertiser == a) with
  | some r => r.budget
  | none => 0

/-- The bid registered by advertiser `a` among the interested bidders
(`interested_bidders.loc[a].iloc[1]` after reindexing by `Advertiser`);
`0` as a don't-care value when `a` has no row. -/
def bidOf (interested : List BidRow) (a : Nat) : ℚ :=
  match interested.find? (fun r => r.advertiser == a) with
  | some r => r.bid
  | none => 0

/-- `bidder_df.loc[[query]]` - all rows whose `Keyword` index equals `query`,
in row order; pandas raises `KeyError` when the keyword is not in the index. -/
def interestedBidders (df : BidderDf) (q : String) : Except Err (List BidRow) :=
  let rows := df.filter (fun r => r.keyword == q)
  if rows.isEmpty then Except.error Err.keyError else Except.ok rows

/-- `bidder_budget_df.reset_index()`: move the `Advertiser` index to a column
and index the rows by position. -/
def resetIndex (bdf : BudgetDf) : List LabeledBudgetRow :=
  bdf.enum.map (fun p => ⟨p.1, p.2.advertiser, p.2.budget⟩)

/-- `find_interested_bidder_budget_df`: keep only the budget rows whose
advertiser appears among the interested bidders; the rows keep the positional
labels produced by `reset_index()`. -/
def find_interested_bidder_budget_df (interested : List BidRow) (bdf : BudgetDf) :
    List LabeledBudgetRow :=
  (resetIndex bdf).filter
    (fun row => (interested.map (fun b => b.advertiser)).contains row.advertiser)

/-- Sort order of `greedy`'s
`sort_values(by=["Bid Value","Advertiser"], ascending=[False,True])`:
`a` may come before `b` iff `a` has the larger bid, or equal bids and the
smaller (or equal) advertiser id. -/
def greedyRel (a b : BidRow) : Prop :=
  b.bid < a.bid ∨ (a.bid = b.bid ∧ a.advertiser ≤ b.advertiser)

instance : DecidableRel greedyRel := fun a b => by
  unfold greedyRel; infer_instance

instance : IsTotal BidRow greedyRel where
  total a b := by
    rcases lt_trichotomy a.bid b.bid with h | h | h
    · exact Or.inr (Or.inl h)
    · rcases Nat.le_total a.advertiser b.advertiser with hle | hle
      · exact Or.inl (Or.inr ⟨h, hle⟩)
      · exact Or.inr (Or.inr ⟨h.symm, hle⟩)
    · exact Or.inl (Or.inl h)

instance : IsTrans BidRow greedyRel where
  trans a b c hab hbc := by
    rcases hab with h1 | ⟨h1, h1'⟩ <;> rcases hbc with h2 | ⟨h2, h2'⟩
    · exact Or.inl (lt_trans h2 h1)
    · exact Or.inl (h2 ▸ h1)
    · exact Or.inl (lt_of_lt_of_eq h2 h1.symm)
    · exact Or.inr ⟨h1.trans h2, le_trans h1' h2'⟩

/-- Sort order of `balance`'s
`sort_values(by=["Budget","Advertiser"], ascending=[False,True])`. -/
def balanceRel (a b : LabeledBudgetRow) : Prop :=
  b.budget < a.budget ∨ (a.budget = b.budget ∧ a.advertiser ≤ b.advertiser)

instance : DecidableRel balanceRel := fun a b => by
  unfold balanceRel; infer_instance

instance : IsTotal LabeledBudgetRow balanceRel where
  total a b := by
    rcases lt_trichotomy a.budget b.budget with h | h | h
    · exact Or.inr (Or.inl h)
    · rcases Nat.le_total a.advertiser b.advertiser with hle | hle
      · exact Or.inl (Or.inr ⟨h, hle⟩)
      · exact Or.inr (Or.inr ⟨h.symm, hle⟩)
    · exact Or.inl (Or.inl h)

instance : IsTrans LabeledBudgetRow balanceRel where
  trans a b c hab hbc := by
    rcases hab with h1 | ⟨h1, h1'⟩ <;> rcases hbc with h2 | ⟨h2, h2'⟩
    · exact Or.inl (lt_trans h2 h1)
    · exact Or.inl (h2 ▸ h1)
    · exact Or.inl (lt_of_lt_of_eq h2 h1.symm)
    · exact Or.inr ⟨h1.trans h2, le_trans h1' h2'⟩

/-- The scan loop of `greedy`: walk the sorted interested bidders, look the
advertiser's budget up in `bidder_budget_df` (`.loc`, a `KeyError` when the
advertiser has no budget row), and return the first bidder whose budget covers
its bid; `(None, 0)` when none does. -/
def greedyScan (bdf : BudgetDf) : List BidRow → Except Err (Option Nat × ℚ)
  | [] => Except.ok (none, 0)
  | row :: rest =>
    match bdf.find? (fun r => r.advertiser == row.advertiser) with
    | none => Except.error Err.keyError
    | some br =>
      if row.bid ≤ br.budget then Except.ok (some row.advertiser, row.bid)
      else greedyScan bdf rest

/-- `greedy(interested_bidders, bidder_budget_df)`. -/
def greedy (interested : List BidRow) (bdf : BudgetDf) : Except Err (Option Nat × ℚ) :=
  greedyScan bdf (List.insertionSort greedyRel interested)

/-- The scan loop of `balance`: walk the sorted filtered budget rows, fetch
the row's advertiser's bid among the interested bidders
(`interested_bidders.loc[mask].iloc[0,1]`, an `IndexError` when no row
matches), and return the first advertiser whose budget covers that bid;
`(None, 0)` when none does. -/
def balanceScan (interested : List BidRow) :
    List LabeledBudgetRow → Except Err (Option Nat × ℚ)
  | [] => Except.ok (none, 0)
  | row :: rest =>
    match interested.find? (fun r => r.advertiser == row.advertiser) with
    | none => Except.error Err.indexError
    | some b =>
      if b.bid ≤ row.budget then Except.ok (some row.advertiser, b.bid)
      else balanceScan interested rest

/-- `balance(interested_bidders, bidder_budget_df)`. -/
def balance (interested : List BidRow) (bdf : BudgetDf) : Except Err (Option Nat × ℚ) :=
  balanceScan interested
    (List.insertionSort balanceRel (find_interested_bidder_budget_df interested bdf))

/-- Sort order of `msvv`'s `sorted(bidder_scale_list, key=itemgetter(1), reverse=True)`:
descending scaled bid. -/
def msvvRel (a b : Nat × ℝ) : Prop := b.2 ≤ a.2

noncomputable instance : DecidableRel msvvRel := fun a b => Real.decidableLE b.2 a.2

instance : IsTotal (Nat × ℝ) msvvRel where
  total a b := le_total b.2 a.2

instance : IsTrans (Nat × ℝ) msvvRel where
  trans _ _ _ hab hbc := le_trans hbc hab

/-- The scaled bid `msvv` computes for one filtered budget row (lines 130-134 of
the source): `fraction_of_budget_spent = (original_budget - row["Budget"]) / original_budget`
with `original_budget` the advertiser's budget in `orig_bidder_budget_df`,
`psi = 1 - exp(fraction_of_budget_spent - 1)`, and `scaled_bid = original_bid * psi`. -/
noncomputable def scaledBidOf (interested : List BidRow) (origBdf : BudgetDf)
    (row : LabeledBudgetRow) : ℝ :=
  (bidOf interested row.advertiser : ℝ) *
    (1 - Real.exp ((((budgetOf origBdf row.advertiser : ℝ) - (row.budget : ℝ)) /
      (budgetOf origBdf row.advertiser : ℝ)) - 1))

/-- The scan loop of `msvv` (lines 139-144): walk the sorted scale list; for
each advertiser fetch its bid from the reindexed interested bidders
(`interested_bidders.loc[bidder].iloc[1]`) and its budget from
`interested_bidder_budget_df.loc[bidder].iloc[1]`.  That second lookup keys the
*positional* labels left by `reset_index()` with the advertiser id, exactly as
the source does; it is a `KeyError` when no row carries that label.  Return the
first advertiser whose looked-up budget covers its bid, else `(None, 0)`. -/
def msvvScan (interested : List BidRow) (ib : List LabeledBudgetRow) :
    List (Nat × ℝ) → Except Err (Option Nat × ℚ)
  | [] => Except.ok (none, 0)
  | (bidder, _) :: rest =>
    match interested.find? (fun r => r.advertiser == bidder) with
    | none => Except.error Err.keyError
    | some ibid =>
      match ib.find? (fun r => r.label == bidder) with
      | none => Except.error Err.keyError
      | some budgetRow =>
        if ibid.bid ≤ budgetRow.budget then Except.ok (some bidder, ibid.bid)
        else msvvScan interested ib rest

/-- `msvv(interested_bidders, bidder_budget_df, orig_bidder_budget_df)`:
build `bidder_scale_list` (erroring like Python on a missing
`orig_bidder_budget_df.loc[...]` label), sort it by descending scaled bid, and
scan for the first affordable bidder.  A zero `original_budget` does not
raise: the source's float64 division yields a nan spend fraction with a
`RuntimeWarning` and the loop continues; the embedding computes that scale
value with Lean's `x / 0 = 0` convention (statements about the resulting
order carry non-zero-budget hypotheses, since a nan sort key leaves the
source's order unspecified). -/
noncomputable def msvv (interested : List BidRow) (bdf origBdf : BudgetDf) :
    Except Err (Option Nat × ℚ) := do
  let ib := find_interested_bidder_budget_df interested bdf
  let scale ← ib.mapM (fun row => do
    let origRow ← liftOpt Err.keyError
      (origBdf.find? (fun r => r.advertiser == row.advertiser))
    let ibid ← liftOpt Err.keyError
      (interested.find? (fun r => r.advertiser == row.advertiser))
    Except.ok (row.advertiser,
      (ibid.bid : ℝ) *
        (1 - Real.exp ((((origRow.budget : ℝ) - (row.budget : ℝ)) /
          (origRow.budget : ℝ)) - 1))))
  msvvScan interested ib (List.insertionSort msvvRel scale)

/-- `bidder_budget_df.loc[a, "Budget"] = budget - revenue` (line 171): write
`budget - amount` into every row labelled `a` (pandas aligns the assignment on
the `Advertiser` index, so each such row loses `amount`). -/
def chargeBidder (bdf : BudgetDf) (a : Nat) (amount : ℚ) : BudgetDf :=
  bdf.map (fun r => if r.advertiser = a then ⟨r.advertiser, r.budget - amount⟩ else r)

/-- State of one `adwords` pass: the mutable `bidder_budget_df` and the
`total_revenue` accumulator. -/
structure PassState where
  budgets : BudgetDf
  total_revenue : ℚ
deriving DecidableEq

/-- Lines 168-172 of the source: if a bidder was designated, read its budget
(`bidder_budget_df.loc[designated_bidder, "Budget"]`, a `KeyError` when the
label is absent) and write back `budget - revenue`; always add the revenue to
the accumulator. -/
def settle (st : PassState) : Option Nat × ℚ → Except Err PassState
  | (none, rev) => Except.ok ⟨st.budgets, st.total_revenue + rev⟩
  | (some w, rev) =>
    match st.budgets.find? (fun r => r.advertiser == w) with
    | none => Except.error Err.keyError
    | some _ => Except.ok ⟨chargeBidder st.budgets w rev, st.total_revenue + rev⟩

/-- The strategy dispatch of lines 161-166.  The source uses three independent
`if` statements; with an unrecognised `algo` the loop body would read the
unbound `designated_bidder`, a `NameError` on the first query, modelled by the
final `else`. -/
noncomputable def selectBidder (algo : String) (interested : List BidRow)
    (bdf origBdf : BudgetDf) : Except Err (Option Nat × ℚ) :=
  if algo = "greedy" then greedy interested bdf
  else if algo = "balance" then balance interested bdf
  else if algo = "msvv" then msvv interested bdf origBdf
  else Except.error Err.nameError

/-- One iteration of the `for query in queries` loop of `adwords`: fetch the
interested bidders (`KeyError` on an unknown keyword), dispatch on the `algo`
string, and charge the designated bidder if any. -/
noncomputable def adwordsStep (algo : String) (df : BidderDf) (origBdf : BudgetDf)
    (st : PassState) (q : String) : Except Err PassState := do
  let interested ← interestedBidders df q
  let res ← selectBidder algo interested st.budgets origBdf
  settle st res

/-- `adwords(bidder_df, bidder_budget_df, queries, algo)`: fold the per-query
step over the query sequence, starting from revenue `0`, with
`orig_bidder_budget_df` a copy of the budget table taken at entry (line 158).
Returns the total revenue together with the final (mutated) budget table. -/
noncomputable def adwords (df : BidderDf) (bdf : BudgetDf) (queries : List String)
    (algo : String) : Except Err (ℚ × BudgetDf) := do
  let st ← queries.foldlM (adwordsStep algo df bdf) ⟨bdf, 0⟩
  Except.ok (st.total_revenue, st.budgets)

/-- Modelled from the spec: `random.seed`/`random.shuffle` of Python's standard
library (a seeded Mersenne-Twister Fisher-Yates shuffle) are external to
`src/`; the spec requires only a pseudorandom generator seeded
deterministically from the seed, whose state carries over between trials and
whose shuffle produces a permutation.  The generator state is a `Nat` advanced
by a linear congruential step. -/
def randStep (g : Nat) : Nat := (g * 1103515245 + 12345) % 2147483648

/-- Modelled from the spec: one shuffle draw.  `shuffleGo fuel g l` advances
the generator once per element and moves the element at the drawn index to the
front of the remainder; `fuel` is the list length, making the recursion
structural. -/
def shuffleGo {α : Type} : Nat → Nat → List α → List α × Nat
  | Nat.succ fuel, g, x :: xs =>
    let g' := randStep g
    let l := x :: xs
    let k := g' % l.length
    let rest := l.eraseIdx k
    let p := shuffleGo fuel g' rest
    (l.getD k x :: p.1, p.2)
  | _, g, _ => ([], g)

/-- Modelled from the spec: `random.shuffle(queries)` - permute the list,
returning the permuted list and the advanced generator state. -/
def shuffleOnce {α : Type} (g : Nat) (l : List α) : List α × Nat :=
  shuffleGo l.length g l

/-- State of the `competitive_ratio` trial loop: generator state, the (shared,
in-place shuffled) query list, the (shared, never reset) budget table, and the
revenue accumulated across trials. -/
structure CrState where
  gen : Nat
  queries : List String
  budgets : BudgetDf
  total_revenue : ℚ
deriving DecidableEq

/-- The `for i in range(permutations)` loop of `competitive_ratio`: shuffle the
query list in place, run a full `adwords` pass on the shared budget table (the
source never resets it), and accumulate the revenue. -/
noncomputable def crTrials (df : BidderDf) (algo : String) :
    Nat → CrState → Except Err CrState
  | 0, st => Except.ok st
  | Nat.succ n, st => do
    let shuffled := shuffleOnce st.gen st.queries
    let res ← adwords df st.budgets shuffled.1 algo
    crTrials df algo n ⟨shuffled.2, shuffled.1, res.2, st.total_revenue + res.1⟩

/-- `competitive_ratio(bidder_df, bidder_budget_df, queries, algo, optimal_revenue)`:
seed the generator with `0`, run `permutations = 100` trials, and return
`(total_revenue / 100) / optimal_revenue`, together with the final state of the
caller's query list and budget table (both mutated in place by the source). -/
noncomputable def competitive_ratio (df : BidderDf) (bdf : BudgetDf)
    (queries : List String) (algo : String) (optimal_revenue : ℚ) :
    Except Err (ℚ × List String × BudgetDf) := do
  let st ← crTrials df algo 100 ⟨0, queries, bdf, 0⟩
  Except.ok ((st.total_revenue / 100) / optimal_revenue, st.queries, st.budgets)

/-- One row of `bidder_dataset.csv` as `read_filter_data` sees it: the
`Budget` cell is empty (`NaN`) on all but one row per advertiser. -/
structure CsvRow where
  Advertiser : Nat
  Keyword : String
  BidValue : ℚ
  Budget : Option ℚ
deriving DecidableEq

/-- The in-memory transformation of `read_filter_data` (the file I/O itself is
out of scope): `bidder_budget_df` keeps the `Advertiser`/`Budget` pairs of the
rows whose `Budget` is present (`dropna()`), and `bidder_df` keeps every row's
`Keyword`/`Advertiser`/`Bid Value`.  No validation of any kind is performed. -/
def read_filter_data (rows : List CsvRow) : BidderDf × BudgetDf :=
  (rows.map (fun r => ⟨r.Keyword, r.Advertiser, r.BidValue⟩),
   rows.filterMap (fun r => r.Budget.map (fun b => ⟨r.Advertiser, b⟩)))

/-- `optimal_revenue = bidder_budget_df.sum(axis=0).iloc[0]` (line 196):
the sum of all recorded budgets. -/
def optimalRevenue (bdf : BudgetDf) : ℚ := (bdf.map (fun r => r.budget)).sum

/-- Affordability of an interested bidder against the budget table: the
advertiser's recorded budget covers its bid. -/
def Affordable (bdf : BudgetDf) (r : BidRow) : Prop := r.bid ≤ budgetOf bdf r.advertiser

instance (bdf : BudgetDf) (r : BidRow) : Decidable (Affordable bdf r) := by
  unfold Affordable; infer_instance

/-- The budget table's advertiser ids coincide with the rows' positions.  The
repository's `bidder_dataset.csv` lists advertisers `0..n-1` in order, so its
budget table satisfies this; `msvv`'s lookup
`interested_bidder_budget_df.loc[bidder]` is only meaningful under it. -/
def Aligned (bdf : BudgetDf) : Prop := ∀ p ∈ bdf.enum, p.2.advertiser = p.1

instance (bdf : BudgetDf) : Decidable (Aligned bdf) := by
  unfold Aligned; infer_instance

/-- The value `interested_bidder_budget_df.loc[a].iloc[1]` reads: the budget of
the first row whose *positional label* equals `a` (`0` when the label is
absent, in which case the source raises `KeyError` instead). -/
def ibBudgetOf (ib : List LabeledBudgetRow) (a : Nat) : ℚ :=
  match ib.find? (fun r => r.label == a) with
  | some r => r.budget
  | none => 0

/-- One trial's in-place shuffle as a transformation of (generator state,
query list); trial `i+1` of `competitive_ratio` runs on
`(shufflePair^[i+1] (0, queries)).2`. -/
def shufflePair (p : Nat × List String) : Nat × List String :=
  ((shuffleOnce p.1 p.2).2, (shuffleOnce p.1 p.2).1)

/-- A misaligned catalog: the budget table lists advertiser `1` at position `0`
and advertiser `0` at position `1`. -/
def dfMis : BidderDf := [⟨"k", 1, 10⟩, ⟨"k", 0, 1⟩]

/-- The misaligned budget table, advertiser `1` holding budget `x`. -/
def bdfMis (x : ℚ) : BudgetDf := [⟨1, x⟩, ⟨0, 10⟩]

/-! ## Properties of the shuffle model -/

theorem cons_eraseIdx_perm {α : Type} : ∀ (l : List α) (k : Nat) (h : k < l.length),
    ((l.get ⟨k, h⟩) :: l.eraseIdx k).Perm l
  | _ :: _, 0, _ => by simp
  | x :: xs, k+1, h => by
    have ih := cons_eraseIdx_perm xs k (by simpa using h)
    simp only [List.get_cons_succ, List.eraseIdx_cons_succ]
    exact (List.Perm.swap x _ _).trans (ih.cons x)

theorem shuffleGo_fst_perm {α : Type} :
    ∀ (fuel g : Nat) (l : List α), fuel = l.length → (shuffleGo fuel g l).1.Perm l
  | 0, g, l, hf => by
    have : l = [] := List.length_eq_zero.mp hf.symm
    subst this; simp [shuffleGo]
  | fuel+1, g, l, hf => by
    match l, hf with
    | x :: xs, hf =>
      have hk : randStep g % (x :: xs).length < (x :: xs).length :=
        Nat.mod_lt _ (by simp)
      have hrest : fuel = ((x :: xs).eraseIdx (randStep g % (x :: xs).length)).length := by
        rw [List.length_eraseIdx_of_lt hk]
        simpa using hf
      have ih := shuffleGo_fst_perm fuel (randStep g) _ hrest
      have hget : (x :: xs).getD (randStep g % (x :: xs).length) x =
          (x :: xs).get ⟨randStep g % (x :: xs).length, hk⟩ := List.getD_eq_getElem _ _ hk
      simp only [shuffleGo]
      rw [hget]
      exact (ih.cons _).trans (cons_eraseIdx_perm _ _ hk)

/-- The modelled `random.shuffle` returns a permutation of its input. -/
theorem shuffleOnce_fst_perm {α : Type} (g : Nat) (l : List α) :
    (shuffleOnce g l).1.Perm l :=
  shuffleGo_fst_perm l.length g l rfl

/-- Shuffling a list whose elements are all equal returns the list unchanged. -/
theorem shuffleOnce_of_const {α : Type} (g : Nat) (l : List α) (a : α)
    (h : ∀ y ∈ l, y = a) : (shuffleOnce g l).1 = l := by
  have hp := shuffleOnce_fst_perm g l
  have h1 : l = List.replicate l.length a := List.eq_replicate_iff.mpr ⟨rfl, h⟩
  have h2 : (shuffleOnce g l).1 = List.replicate l.length a := by
    apply List.eq_replicate_iff.mpr
    refine ⟨by simpa using hp.length_eq, ?_⟩
    intro b hb
    exact h b (hp.mem_iff.mp hb)
  rw [h2, ← h1]


theorem budgetOf_eq_of_find {bdf : BudgetDf} {a : Nat} {br : BudgetRow}
    (h : bdf.find? (fun r => r.advertiser == a) = some br) : budgetOf bdf a = br.budget := by
  unfold budgetOf; rw [h]

theorem greedyScan_spec (bdf : BudgetDf) :
    ∀ L : List BidRow,
      (∀ r ∈ L, (bdf.find? (fun br => br.advertiser == r.advertiser)).isSome) →
      (greedyScan bdf L = Except.ok (none, 0) ∧ ∀ r ∈ L, ¬ Affordable bdf r) ∨
      (∃ L1 r L2, L = L1 ++ r :: L2 ∧ (∀ x ∈ L1, ¬ Affordable bdf x) ∧ Affordable bdf r ∧
        greedyScan bdf L = Except.ok (some r.advertiser, r.bid))
  | [], _ => Or.inl ⟨rfl, by simp⟩
  | row :: rest, hpres => by
    obtain ⟨br, hbr⟩ := Option.isSome_iff_exists.mp (hpres row (by simp))
    have hbud : budgetOf bdf row.advertiser = br.budget := budgetOf_eq_of_find hbr
    by_cases hc : row.bid ≤ br.budget
    · refine Or.inr ⟨[], row, rest, rfl, by simp, ?_, ?_⟩
      · unfold Affordable; rw [hbud]; exact hc
      · simp only [greedyScan, hbr]; rw [if_pos hc]
    · have hrow : ¬ Affordable bdf row := by unfold Affordable; rw [hbud]; exact hc
      have hstep : greedyScan bdf (row :: rest) = greedyScan bdf rest := by
        simp only [greedyScan, hbr]; rw [if_neg hc]
      rcases greedyScan_spec bdf rest (fun r hr => hpres r (by simp [hr])) with
        ⟨heq, hall⟩ | ⟨L1, r, L2, hsplit, hL1, haff, heq⟩
      · refine Or.inl ⟨by rw [hstep, heq], ?_⟩
        intro r hr
        rcases List.mem_cons.mp hr with h | h
        · exact h ▸ hrow
        · exact hall r h
      · refine Or.inr ⟨row :: L1, r, L2, by rw [hsplit]; rfl, ?_, haff, by rw [hstep, heq]⟩
        intro x hx
        rcases List.mem_cons.mp hx with h | h
        · exact h ▸ hrow
        · exact hL1 x h

/-! ## Claim theorems -/

/-- Claim C4: for every query, the Greedy strategy selects, among the eligible
bidders whose remaining budget covers their bid, the one with the maximum bid
value, ties broken by ascending advertiser id, and charges exactly that bid;
when no eligible bidder is affordable it returns `(None, 0)`.  In particular,
with bidder 1 (bid 10, budget 5) and bidder 2 (bid 8, budget 20) on keyword
"shoes", the single query "shoes" is won by bidder 2 with revenue 8. -/
theorem greedy_selects_max_affordable_bid (interested : List BidRow) (bdf : BudgetDf)
    (hpres : ∀ r ∈ interested, (bdf.find? (fun br => br.advertiser == r.advertiser)).isSome) :
    (∃ res, greedy interested bdf = Except.ok res) ∧
    (greedy interested bdf = Except.ok (none, 0) ↔ ∀ r ∈ interested, ¬ Affordable bdf r) ∧
    (∀ w c, greedy interested bdf = Except.ok (some w, c) →
      ∃ r ∈ interested, r.advertiser = w ∧ c = r.bid ∧ Affordable bdf r ∧
        ∀ r' ∈ interested, Affordable bdf r' →
          r'.bid < r.bid ∨ (r'.bid = r.bid ∧ w ≤ r'.advertiser)) ∧
    greedy [⟨"shoes", 1, 10⟩, ⟨"shoes", 2, 8⟩] [⟨1, 5⟩, ⟨2, 20⟩] = Except.ok (some 2, 8) := by
  have hperm : (List.insertionSort greedyRel interested).Perm interested :=
    List.perm_insertionSort greedyRel interested
  have hsorted : List.Sorted greedyRel (List.insertionSort greedyRel interested) :=
    List.sorted_insertionSort greedyRel interested
  have hpresL : ∀ r ∈ List.insertionSort greedyRel interested,
      (bdf.find? (fun br => br.advertiser == r.advertiser)).isSome :=
    fun r hr => hpres r (hperm.mem_iff.mp hr)
  unfold greedy
  rcases greedyScan_spec bdf _ hpresL with ⟨heq, hall⟩ | ⟨L1, r, L2, hsplit, hL1, haff, heq⟩
  · refine ⟨⟨(none, 0), heq⟩, ?_, ?_, by decide⟩
    · constructor
      · intro _ r hr
        exact hall r (hperm.mem_iff.mpr hr)
      · intro _
        exact heq
    · intro w c hwc
      rw [heq] at hwc
      cases hwc
  · have hrmem : r ∈ interested := hperm.mem_iff.mp (by rw [hsplit]; simp)
    refine ⟨⟨(some r.advertiser, r.bid), heq⟩, ?_, ?_, by decide⟩
    · constructor
      · intro hn
        rw [heq] at hn
        cases hn
      · intro hnone
        exact absurd haff (hnone r hrmem)
    · intro w c hwc
      rw [heq] at hwc
      obtain ⟨hw, hcb⟩ : some r.advertiser = some w ∧ r.bid = c := by
        constructor <;> [exact congrArg Prod.fst (Except.ok.inj hwc); exact congrArg Prod.snd (Except.ok.inj hwc)]
      obtain rfl : r.advertiser = w := Option.some.inj hw
      refine ⟨r, hrmem, rfl, hcb.symm, haff, ?_⟩
      intro r' hr' haff'
      have hr'L : r' ∈ L1 ++ r :: L2 := by rw [← hsplit]; exact hperm.mem_iff.mpr hr'
      rcases List.mem_append.mp hr'L with h | h
      · exact absurd haff' (hL1 r' h)
      · rcases List.mem_cons.mp h with h | h
        · subst h
          exact Or.inr ⟨rfl, le_refl _⟩
        · have hpair := hsplit ▸ hsorted
          have hrel : greedyRel r r' := by
            have := (List.pairwise_append.mp hpair).2.1
            exact (List.pairwise_cons.mp this).1 r' h
          rcases hrel with hlt | ⟨hbeq, hle⟩
          · exact Or.inl hlt
          · exact Or.inr ⟨hbeq.symm, hle⟩

theorem bidOf_eq_of_find {interested : List BidRow} {a : Nat} {r : BidRow}
    (h : interested.find? (fun x => x.advertiser == a) = some r) : bidOf interested a = r.bid := by
  unfold bidOf; rw [h]

theorem mem_fibb_find_isSome {interested : List BidRow} {bdf : BudgetDf} {row : LabeledBudgetRow}
    (h : row ∈ find_interested_bidder_budget_df interested bdf) :
    (interested.find? (fun r => r.advertiser == row.advertiser)).isSome := by
  have hp := (List.mem_filter.mp h).2
  rw [List.find?_isSome]
  have : row.advertiser ∈ interested.map (fun b => b.advertiser) := by
    simpa using hp
  obtain ⟨b, hb, hadv⟩ := List.mem_map.mp this
  exact ⟨b, hb, by simp [hadv]⟩

theorem balanceScan_spec (interested : List BidRow) :
    ∀ L : List LabeledBudgetRow,
      (∀ row ∈ L, (interested.find? (fun r => r.advertiser == row.advertiser)).isSome) →
      (balanceScan interested L = Except.ok (none, 0) ∧
        ∀ row ∈ L, ¬ bidOf interested row.advertiser ≤ row.budget) ∨
      (∃ L1 row L2, L = L1 ++ row :: L2 ∧
        (∀ x ∈ L1, ¬ bidOf interested x.advertiser ≤ x.budget) ∧
        bidOf interested row.advertiser ≤ row.budget ∧
        balanceScan interested L = Except.ok (some row.advertiser, bidOf interested row.advertiser))
  | [], _ => Or.inl ⟨rfl, by simp⟩
  | row :: rest, hpres => by
    obtain ⟨b, hb⟩ := Option.isSome_iff_exists.mp (hpres row (by simp))
    have hbid : bidOf interested row.advertiser = b.bid := bidOf_eq_of_find hb
    by_cases hc : b.bid ≤ row.budget
    · refine Or.inr ⟨[], row, rest, rfl, by simp, by rw [hbid]; exact hc, ?_⟩
      simp only [balanceScan, hb]; rw [if_pos hc, hbid]
    · have hrow : ¬ bidOf interested row.advertiser ≤ row.budget := by rw [hbid]; exact hc
      have hstep : balanceScan interested (row :: rest) = balanceScan interested rest := by
        simp only [balanceScan, hb]; rw [if_neg hc]
      rcases balanceScan_spec interested rest (fun r hr => hpres r (by simp [hr])) with
        ⟨heq, hall⟩ | ⟨L1, r, L2, hsplit, hL1, haff, heq⟩
      · refine Or.inl ⟨by rw [hstep, heq], ?_⟩
        intro r hr
        rcases List.mem_cons.mp hr with h | h
        · exact h ▸ hrow
        · exact hall r h
      · refine Or.inr ⟨row :: L1, r, L2, by rw [hsplit]; rfl, ?_, haff, by rw [hstep, heq]⟩
        intro x hx
        rcases List.mem_cons.mp hx with h | h
        · exact h ▸ hrow
        · exact hL1 x h

/-- Claim C5: for every query, the Balance strategy selects, among the eligible
bidders (interested bidders holding a budget row) whose remaining budget covers
their bid, the one with the maximum current remaining budget, ties broken by
ascending advertiser id, and charges that bidder's bid for the keyword; when no
eligible bidder is affordable it returns `(None, 0)`.  In particular two
bidders with ids 1 and 2, equal budgets 10 and equal bids 5 on one keyword give
the win to id 1. -/
theorem balance_selects_max_remaining_budget (interested : List BidRow) (bdf : BudgetDf) :
    (∃ res, balance interested bdf = Except.ok res) ∧
    (balance interested bdf = Except.ok (none, 0) ↔
      ∀ row ∈ find_interested_bidder_budget_df interested bdf,
        ¬ bidOf interested row.advertiser ≤ row.budget) ∧
    (∀ w c, balance interested bdf = Except.ok (some w, c) →
      ∃ row ∈ find_interested_bidder_budget_df interested bdf, row.advertiser = w ∧
        c = bidOf interested w ∧ bidOf interested w ≤ row.budget ∧
        ∀ row' ∈ find_interested_bidder_budget_df interested bdf,
          bidOf interested row'.advertiser ≤ row'.budget →
            row'.budget < row.budget ∨ (row'.budget = row.budget ∧ w ≤ row'.advertiser)) ∧
    balance [⟨"kw", 1, 5⟩, ⟨"kw", 2, 5⟩] [⟨1, 10⟩, ⟨2, 10⟩] = Except.ok (some 1, 5) := by
  set fibb := find_interested_bidder_budget_df interested bdf with hfibb
  have hperm : (List.insertionSort balanceRel fibb).Perm fibb :=
    List.perm_insertionSort balanceRel fibb
  have hsorted : List.Sorted balanceRel (List.insertionSort balanceRel fibb) :=
    List.sorted_insertionSort balanceRel fibb
  have hpresL : ∀ row ∈ List.insertionSort balanceRel fibb,
      (interested.find? (fun r => r.advertiser == row.advertiser)).isSome :=
    fun row hr => mem_fibb_find_isSome (hperm.mem_iff.mp hr)
  unfold balance
  rw [← hfibb]
  rcases balanceScan_spec interested _ hpresL with ⟨heq, hall⟩ | ⟨L1, r, L2, hsplit, hL1, haff, heq⟩
  · refine ⟨⟨(none, 0), heq⟩, ?_, ?_, by decide⟩
    · constructor
      · intro _ row hr
        exact hall row (hperm.mem_iff.mpr hr)
      · intro _
        exact heq
    · intro w c hwc
      rw [heq] at hwc
      cases hwc
  · have hrmem : r ∈ fibb := hperm.mem_iff.mp (by rw [hsplit]; simp)
    refine ⟨⟨(some r.advertiser, bidOf interested r.advertiser), heq⟩, ?_, ?_, by decide⟩
    · constructor
      · intro hn
        rw [heq] at hn
        cases hn
      · intro hnone
        exact absurd haff (hnone r hrmem)
    · intro w c hwc
      rw [heq] at hwc
      obtain ⟨hw, hcb⟩ : some r.advertiser = some w ∧ bidOf interested r.advertiser = c := by
        constructor <;> [exact congrArg Prod.fst (Except.ok.inj hwc); exact congrArg Prod.snd (Except.ok.inj hwc)]
      obtain rfl : r.advertiser = w := Option.some.inj hw
      refine ⟨r, hrmem, rfl, hcb.symm, haff, ?_⟩
      intro row' hr' haff'
      have hr'L : row' ∈ L1 ++ r :: L2 := by rw [← hsplit]; exact hperm.mem_iff.mpr hr'
      rcases List.mem_append.mp hr'L with h | h
      · exact absurd haff' (hL1 row' h)
      · rcases List.mem_cons.mp h with h | h
        · subst h
          exact Or.inr ⟨rfl, le_refl _⟩
        · have hpair := hsplit ▸ hsorted
          have hrel : balanceRel r row' := by
            have := (List.pairwise_append.mp hpair).2.1
            exact (List.pairwise_cons.mp this).1 row' h
          rcases hrel with hlt | ⟨hbeq, hle⟩
          · exact Or.inl hlt
          · exact Or.inr ⟨hbeq.symm, hle⟩

theorem ibBudgetOf_eq_of_find {ib : List LabeledBudgetRow} {a : Nat} {row : LabeledBudgetRow}
    (h : ib.find? (fun r => r.label == a) = some row) : ibBudgetOf ib a = row.budget := by
  unfold ibBudgetOf; rw [h]

theorem find?_label_of_mem :
    ∀ {ib : List LabeledBudgetRow}, (ib.map (fun r => r.label)).Nodup →
      ∀ {row : LabeledBudgetRow}, row ∈ ib →
        ib.find? (fun r => r.label == row.label) = some row := by
  intro ib
  induction ib with
  | nil => intro _ row h; cases h
  | cons x rest ih =>
    intro hnd row hmem
    rcases List.mem_cons.mp hmem with rfl | hmem'
    · simp [List.find?]
    · have hne : x.label ≠ row.label := by
        intro hc
        have : row.label ∈ rest.map (fun r => r.label) := List.mem_map.mpr ⟨row, hmem', rfl⟩
        rw [← hc] at this
        exact (List.nodup_cons.mp (by simpa using hnd)).1 this
      have : ¬ ((fun r => r.label == row.label) x = true) := by simp [hne]
      rw [List.find?_cons_of_neg rest this]
      exact ih (List.nodup_cons.mp (by simpa using hnd)).2 hmem'

theorem fibb_labels_nodup (interested : List BidRow) (bdf : BudgetDf) :
    ((find_interested_bidder_budget_df interested bdf).map (fun r => r.label)).Nodup := by
  have hsub : (find_interested_bidder_budget_df interested bdf).Sublist (resetIndex bdf) :=
    List.filter_sublist _
  have hmapsub := hsub.map (fun r => r.label)
  apply List.Nodup.sublist hmapsub
  have : (resetIndex bdf).map (fun r => r.label) = bdf.enum.map Prod.fst := by
    unfold resetIndex
    rw [List.map_map]
    rfl
  rw [this, List.enum_map_fst]
  exact List.nodup_range _

theorem fibb_label_eq_advertiser {interested : List BidRow} {bdf : BudgetDf}
    (h : Aligned bdf) {row : LabeledBudgetRow}
    (hmem : row ∈ find_interested_bidder_budget_df interested bdf) :
    row.label = row.advertiser := by
  have hri : row ∈ resetIndex bdf := List.mem_of_mem_filter hmem
  obtain ⟨p, hp, hrow⟩ := List.mem_map.mp hri
  have := h p hp
  rw [← hrow]
  simpa using this.symm

theorem fibb_advertisers_nodup {interested : List BidRow} {bdf : BudgetDf}
    (h : Aligned bdf) :
    ((find_interested_bidder_budget_df interested bdf).map (fun r => r.advertiser)).Nodup := by
  have hnd := fibb_labels_nodup interested bdf
  have : (find_interested_bidder_budget_df interested bdf).map (fun r => r.advertiser) =
      (find_interested_bidder_budget_df interested bdf).map (fun r => r.label) := by
    apply List.map_congr_left
    intro row hrow
    exact (fibb_label_eq_advertiser h hrow).symm
  rw [this]
  exact hnd

theorem ibBudgetOf_fibb {interested : List BidRow} {bdf : BudgetDf}
    (h : Aligned bdf) {row : LabeledBudgetRow}
    (hmem : row ∈ find_interested_bidder_budget_df interested bdf) :
    ibBudgetOf (find_interested_bidder_budget_df interested bdf) row.advertiser = row.budget := by
  have hfind := find?_label_of_mem (fibb_labels_nodup interested bdf) hmem
  rw [fibb_label_eq_advertiser h hmem] at hfind
  exact ibBudgetOf_eq_of_find hfind

theorem exceptBindOk {ε α β : Type} (a : α) (f : α → Except ε β) :
    (Except.ok a >>= f : Except ε β) = f a := rfl

theorem msvv_scale_ok (interested : List BidRow) (origBdf : BudgetDf) :
    ∀ ib : List LabeledBudgetRow,
      (∀ row ∈ ib, (origBdf.find? (fun r => r.advertiser == row.advertiser)).isSome) →
      (∀ row ∈ ib, (interested.find? (fun r => r.advertiser == row.advertiser)).isSome) →
      (ib.mapM (fun row => do
        let origRow ← liftOpt Err.keyError
          (origBdf.find? (fun r => r.advertiser == row.advertiser))
        let ibid ← liftOpt Err.keyError
          (interested.find? (fun r => r.advertiser == row.advertiser))
        Except.ok (row.advertiser,
          (ibid.bid : ℝ) *
            (1 - Real.exp ((((origRow.budget : ℝ) - (row.budget : ℝ)) /
              (origRow.budget : ℝ)) - 1)))) : Except Err (List (Nat × ℝ))) =
      Except.ok (ib.map (fun row => (row.advertiser, scaledBidOf interested origBdf row)))
  | [], _, _ => rfl
  | row :: rest, horig, hint => by
    obtain ⟨o, ho⟩ := Option.isSome_iff_exists.mp (horig row (by simp))
    obtain ⟨b, hb⟩ := Option.isSome_iff_exists.mp (hint row (by simp))
    have ih := msvv_scale_ok interested origBdf rest
      (fun r hr => horig r (by simp [hr]))
      (fun r hr => hint r (by simp [hr]))
    rw [List.mapM_cons, ho, ih]
    simp only [liftOpt, exceptBindOk]
    simp only [hb, liftOpt, exceptBindOk]
    simp only [List.map_cons, scaledBidOf, budgetOf_eq_of_find ho, bidOf_eq_of_find hb]
    rfl

theorem msvvScan_spec (interested : List BidRow) (ib : List LabeledBudgetRow) :
    ∀ S : List (Nat × ℝ),
      (∀ p ∈ S, (interested.find? (fun r => r.advertiser == p.1)).isSome) →
      (∀ p ∈ S, (ib.find? (fun r => r.label == p.1)).isSome) →
      (msvvScan interested ib S = Except.ok (none, 0) ∧
        ∀ p ∈ S, ¬ bidOf interested p.1 ≤ ibBudgetOf ib p.1) ∨
      (∃ S1 p S2, S = S1 ++ p :: S2 ∧
        (∀ x ∈ S1, ¬ bidOf interested x.1 ≤ ibBudgetOf ib x.1) ∧
        bidOf interested p.1 ≤ ibBudgetOf ib p.1 ∧
        msvvScan interested ib S = Except.ok (some p.1, bidOf interested p.1))
  | [], _, _ => Or.inl ⟨rfl, by simp⟩
  | (bidder, s) :: rest, hint, hib => by
    obtain ⟨b, hb⟩ := Option.isSome_iff_exists.mp (hint (bidder, s) (by simp))
    obtain ⟨br, hbr⟩ := Option.isSome_iff_exists.mp (hib (bidder, s) (by simp))
    have hbid : bidOf interested bidder = b.bid := bidOf_eq_of_find hb
    have hbud : ibBudgetOf ib bidder = br.budget := ibBudgetOf_eq_of_find hbr
    by_cases hc : b.bid ≤ br.budget
    · refine Or.inr ⟨[], (bidder, s), rest, rfl, by simp, by rw [hbid, hbud]; exact hc, ?_⟩
      simp only [msvvScan, hb, hbr]
      rw [if_pos hc, hbid]
    · have hrow : ¬ bidOf interested bidder ≤ ibBudgetOf ib bidder := by
        rw [hbid, hbud]; exact hc
      have hstep : msvvScan interested ib ((bidder, s) :: rest) = msvvScan interested ib rest := by
        simp only [msvvScan, hb, hbr]
        rw [if_neg hc]
      rcases msvvScan_spec interested ib rest (fun p hp => hint p (by simp [hp]))
          (fun p hp => hib p (by simp [hp])) with
        ⟨heq, hall⟩ | ⟨S1, p, S2, hsplit, hS1, haff, heq⟩
      · refine Or.inl ⟨by rw [hstep, heq], ?_⟩
        intro p hp
        rcases List.mem_cons.mp hp with h | h
        · exact h ▸ hrow
        · exact hall p h
      · refine Or.inr ⟨(bidder, s) :: S1, p, S2, by rw [hsplit]; rfl, ?_, haff, by rw [hstep, heq]⟩
        intro x hx
        rcases List.mem_cons.mp hx with h | h
        · exact h ▸ hrow
        · exact hS1 x h

/-- Claim C3 (amended): provided every advertiser's id equals its row position
in the budget table (`Aligned`, as in the repository's dataset) and the
original budgets of the eligible bidders are present and non-zero, the MSVV
strategy computes for each eligible bidder
`fraction_spent = (initial_budget - remaining_budget) / initial_budget`,
`psi = 1 - e^(fraction_spent - 1)`, `scaled_bid = bid * psi` (see
`scaledBidOf`), selects among the bidders whose remaining budget covers their
bid one maximising the scaled bid, charges the original unscaled bid, and
returns `(None, 0)` when no bidder is affordable; moreover
`initial_budget = 100`, `remaining_budget = 50` and bid 10 give the scaled bid
`10 * (1 - e^(-1/2))`.  Without the alignment precondition the claim is false:
see the counterexample, where the `.loc[bidder]` budget lookup of source line
142 keys the positional index by advertiser id. -/
theorem msvv_matches_spec_on_aligned (interested : List BidRow) (bdf origBdf : BudgetDf)
    (haligned : Aligned bdf)
    (horig : ∀ row ∈ find_interested_bidder_budget_df interested bdf,
      (origBdf.find? (fun r => r.advertiser == row.advertiser)).isSome)
    (_hnz : ∀ row ∈ find_interested_bidder_budget_df interested bdf,
      budgetOf origBdf row.advertiser ≠ 0) :
    (∃ res, msvv interested bdf origBdf = Except.ok res) ∧
    (msvv interested bdf origBdf = Except.ok (none, 0) ↔
      ∀ row ∈ find_interested_bidder_budget_df interested bdf,
        ¬ bidOf interested row.advertiser ≤ row.budget) ∧
    (∀ w c, msvv interested bdf origBdf = Except.ok (some w, c) →
      ∃ row ∈ find_interested_bidder_budget_df interested bdf, row.advertiser = w ∧
        c = bidOf interested w ∧ bidOf interested w ≤ row.budget ∧
        ∀ row' ∈ find_interested_bidder_budget_df interested bdf,
          bidOf interested row'.advertiser ≤ row'.budget →
            scaledBidOf interested origBdf row' ≤ scaledBidOf interested origBdf row) ∧
    scaledBidOf [⟨"k", 0, 10⟩] [⟨0, 100⟩] ⟨0, 0, 50⟩ = 10 * (1 - Real.exp (-(1/2))) := by
  have hnum : scaledBidOf [⟨"k", 0, 10⟩] [⟨0, 100⟩] ⟨0, 0, 50⟩ =
      10 * (1 - Real.exp (-(1/2))) := by
    simp only [scaledBidOf, bidOf, budgetOf, List.find?]
    norm_num
  set ib := find_interested_bidder_budget_df interested bdf with hib
  set f := fun row => (row.advertiser, scaledBidOf interested origBdf row) with hf
  have hint : ∀ row ∈ ib, (interested.find? (fun r => r.advertiser == row.advertiser)).isSome :=
    fun row h => mem_fibb_find_isSome h
  have hscale := msvv_scale_ok interested origBdf ib horig hint
  have hmsvv : msvv interested bdf origBdf =
      msvvScan interested ib (List.insertionSort msvvRel (ib.map f)) := by
    unfold msvv
    simp only [← hib, hscale, exceptBindOk]
  have hperm : (List.insertionSort msvvRel (ib.map f)).Perm (ib.map f) :=
    List.perm_insertionSort msvvRel (ib.map f)
  have hsorted : List.Sorted msvvRel (List.insertionSort msvvRel (ib.map f)) :=
    List.sorted_insertionSort msvvRel (ib.map f)
  have key : ∀ row ∈ ib, ibBudgetOf ib row.advertiser = row.budget :=
    fun row h => ibBudgetOf_fibb haligned h
  have h1 : ∀ p ∈ List.insertionSort msvvRel (ib.map f),
      (interested.find? (fun r => r.advertiser == p.1)).isSome := by
    intro p hp
    obtain ⟨row, hrow, rfl⟩ := List.mem_map.mp (hperm.mem_iff.mp hp)
    exact hint row hrow
  have h2 : ∀ p ∈ List.insertionSort msvvRel (ib.map f),
      (ib.find? (fun r => r.label == p.1)).isSome := by
    intro p hp
    obtain ⟨row, hrow, rfl⟩ := List.mem_map.mp (hperm.mem_iff.mp hp)
    rw [List.find?_isSome]
    exact ⟨row, hrow, by simp [fibb_label_eq_advertiser haligned hrow]⟩
  rcases msvvScan_spec interested ib _ h1 h2 with
    ⟨heq, hall⟩ | ⟨S1, p, S2, hsplit, hS1, haff, heq⟩
  · refine ⟨⟨(none, 0), by rw [hmsvv, heq]⟩, ?_, ?_, hnum⟩
    · constructor
      · intro _ row hrow
        have := hall (f row) (hperm.mem_iff.mpr (List.mem_map.mpr ⟨row, hrow, rfl⟩))
        rwa [hf, key row hrow] at this
      · intro _
        rw [hmsvv, heq]
    · intro w c hwc
      rw [hmsvv, heq] at hwc
      cases hwc
  · have hpS : p ∈ List.insertionSort msvvRel (ib.map f) := by rw [hsplit]; simp
    obtain ⟨row, hrowmem, rfl⟩ := List.mem_map.mp (hperm.mem_iff.mp hpS)
    have haffrow : bidOf interested row.advertiser ≤ row.budget := by
      rw [hf] at haff
      rwa [key row hrowmem] at haff
    refine ⟨⟨(some row.advertiser, bidOf interested row.advertiser), by rw [hmsvv, heq]⟩,
      ?_, ?_, hnum⟩
    · constructor
      · intro hn
        rw [hmsvv, heq] at hn
        cases hn
      · intro hnone
        exact absurd haffrow (hnone row hrowmem)
    · intro w c hwc
      rw [hmsvv, heq] at hwc
      obtain ⟨hw, hcb⟩ : some (f row).1 = some w ∧ bidOf interested (f row).1 = c := by
        constructor <;>
          [exact congrArg Prod.fst (Except.ok.inj hwc); exact congrArg Prod.snd (Except.ok.inj hwc)]
      have hw' : row.advertiser = w := Option.some.inj hw
      subst hw'
      refine ⟨row, hrowmem, rfl, hcb.symm, haffrow, ?_⟩
      intro row' hrow' haff'
      have hp'S : f row' ∈ S1 ++ f row :: S2 := by
        rw [← hsplit]
        exact hperm.mem_iff.mpr (List.mem_map.mpr ⟨row', hrow', rfl⟩)
      rcases List.mem_append.mp hp'S with h | h
      · have := hS1 (f row') h
        rw [hf, key row' hrow'] at this
        exact absurd haff' this
      · rcases List.mem_cons.mp h with h | h
        · have : (f row').2 = (f row).2 := by rw [h]
          rw [hf] at this
          exact le_of_eq this
        · have hpair := hsplit ▸ hsorted
          have hrel : msvvRel (f row) (f row') := by
            have := (List.pairwise_append.mp hpair).2.1
            exact (List.pairwise_cons.mp this).1 (f row') h
          exact hrel

theorem chargeBidder_advertiser_map (b : BudgetDf) (w : Nat) (rev : ℚ) :
    (chargeBidder b w rev).map (fun r => r.advertiser) = b.map (fun r => r.advertiser) := by
  unfold chargeBidder
  rw [List.map_map]
  apply List.map_congr_left
  intro r _
  by_cases h : r.advertiser = w <;> simp [h]

theorem aligned_chargeBidder {b : BudgetDf} (h : Aligned b) (w : Nat) (rev : ℚ) :
    Aligned (chargeBidder b w rev) := by
  intro p hp
  unfold chargeBidder at hp
  rw [List.enum_map] at hp
  obtain ⟨q, hq, rfl⟩ := List.mem_map.mp hp
  have := h q hq
  by_cases hadv : q.2.advertiser = w <;> simp [Prod.map, hadv] <;> simpa [hadv] using this

theorem aligned_advertisers_nodup {b : BudgetDf} (h : Aligned b) :
    (b.map (fun r => r.advertiser)).Nodup := by
  have h1 : b.map (fun r => r.advertiser) = b.enum.map (fun p => p.2.advertiser) := by
    conv_lhs => rw [← List.enum_map_snd b]
    rw [List.map_map]
    rfl
  have h2 : b.enum.map (fun p => p.2.advertiser) = b.enum.map Prod.fst :=
    List.map_congr_left (fun p hp => h p hp)
  rw [h1, h2, List.enum_map_fst]
  exact List.nodup_range _

theorem find?_advertiser_of_mem :
    ∀ {b : BudgetDf}, (b.map (fun r => r.advertiser)).Nodup →
      ∀ {row : BudgetRow}, row ∈ b →
        b.find? (fun r => r.advertiser == row.advertiser) = some row := by
  intro b
  induction b with
  | nil => intro _ row h; cases h
  | cons x rest ih =>
    intro hnd row hmem
    rcases List.mem_cons.mp hmem with rfl | hmem'
    · simp [List.find?]
    · have hne : x.advertiser ≠ row.advertiser := by
        intro hc
        have : row.advertiser ∈ rest.map (fun r => r.advertiser) :=
          List.mem_map.mpr ⟨row, hmem', rfl⟩
        rw [← hc] at this
        exact (List.nodup_cons.mp (by simpa using hnd)).1 this
      have hx : ¬ ((fun r => r.advertiser == row.advertiser) x = true) := by simp [hne]
      rw [List.find?_cons_of_neg rest hx]
      exact ih (List.nodup_cons.mp (by simpa using hnd)).2 hmem'

theorem resetIndex_row_budgetOf {bdf : BudgetDf} (h : Aligned bdf)
    {row : LabeledBudgetRow} (hmem : row ∈ resetIndex bdf) :
    budgetOf bdf row.advertiser = row.budget := by
  obtain ⟨p, hp, rfl⟩ := List.mem_map.mp hmem
  have hpmem : p.2 ∈ bdf := by
    have := List.enum_map_snd bdf
    rw [← this]
    exact List.mem_map.mpr ⟨p, hp, rfl⟩
  have := find?_advertiser_of_mem (aligned_advertisers_nodup h) hpmem
  exact budgetOf_eq_of_find this

theorem resetIndex_advertiser_isSome {bdf : BudgetDf}
    {row : LabeledBudgetRow} (hmem : row ∈ resetIndex bdf) :
    (bdf.find? (fun r => r.advertiser == row.advertiser)).isSome := by
  obtain ⟨p, hp, rfl⟩ := List.mem_map.mp hmem
  have hpmem : p.2 ∈ bdf := by
    have := List.enum_map_snd bdf
    rw [← this]
    exact List.mem_map.mpr ⟨p, hp, rfl⟩
  rw [List.find?_isSome]
  exact ⟨p.2, hpmem, by simp⟩

theorem budgetOf_chargeBidder (b : BudgetDf) (w : Nat) (rev : ℚ) (a : Nat) :
    budgetOf (chargeBidder b w rev) a =
      match b.find? (fun r => r.advertiser == a) with
      | some r => if r.advertiser = w then r.budget - rev else r.budget
      | none => 0 := by
  unfold budgetOf chargeBidder
  rw [List.find?_map]
  have hpred : ((fun r => r.advertiser == a) ∘
      (fun r : BudgetRow => if r.advertiser = w then ⟨r.advertiser, r.budget - rev⟩ else r)) =
      fun r => r.advertiser == a := by
    funext r
    by_cases h : r.advertiser = w <;> simp [h]
  rw [hpred]
  cases hfind : b.find? (fun r => r.advertiser == a) with
  | none => rfl
  | some r => by_cases h : r.advertiser = w <;> simp [h]

theorem budgetOf_chargeBidder_ne (b : BudgetDf) (w : Nat) (rev : ℚ) (a : Nat) (hne : a ≠ w) :
    budgetOf (chargeBidder b w rev) a = budgetOf b a := by
  rw [budgetOf_chargeBidder]
  cases hfind : b.find? (fun r => r.advertiser == a) with
  | none => unfold budgetOf; rw [hfind]
  | some r =>
    have hra : r.advertiser = a := by simpa using List.find?_some hfind
    show (if r.advertiser = w then r.budget - rev else r.budget) = budgetOf b a
    rw [if_neg (by rw [hra]; exact hne)]
    exact (budgetOf_eq_of_find hfind).symm

theorem budgetOf_chargeBidder_self (b : BudgetDf) (w : Nat) (rev : ℚ)
    (hfound : (b.find? (fun r => r.advertiser == w)).isSome) :
    budgetOf (chargeBidder b w rev) w = budgetOf b w - rev := by
  rw [budgetOf_chargeBidder]
  obtain ⟨r, hr⟩ := Option.isSome_iff_exists.mp hfound
  have hrw : r.advertiser = w := by simpa using List.find?_some hr
  rw [hr]
  show (if r.advertiser = w then r.budget - rev else r.budget) = budgetOf b w - rev
  rw [if_pos hrw, budgetOf_eq_of_find hr]

theorem chargeBidder_of_not_mem (b : BudgetDf) (w : Nat) (rev : ℚ)
    (h : w ∉ b.map (fun r => r.advertiser)) : chargeBidder b w rev = b := by
  have hcong : ∀ r ∈ b,
      (if r.advertiser = w then (⟨r.advertiser, r.budget - rev⟩ : BudgetRow) else r) = r := by
    intro r hr
    rw [if_neg]
    intro hc
    exact h (List.mem_map.mpr ⟨r, hr, hc⟩)
  unfold chargeBidder
  rw [List.map_congr_left hcong]
  exact List.map_id b

theorem optimalRevenue_chargeBidder :
    ∀ (b : BudgetDf), (b.map (fun r => r.advertiser)).Nodup →
      ∀ (w : Nat) (rev : ℚ), (b.find? (fun r => r.advertiser == w)).isSome →
        optimalRevenue (chargeBidder b w rev) = optimalRevenue b - rev
  | [], _, w, rev, hfound => by simp [List.find?] at hfound
  | x :: rest, hnd, w, rev, hfound => by
    have hcons : chargeBidder (x :: rest) w rev =
        (if x.advertiser = w then (⟨x.advertiser, x.budget - rev⟩ : BudgetRow) else x) ::
          chargeBidder rest w rev := rfl
    by_cases hx : x.advertiser = w
    · have hnotin : w ∉ rest.map (fun r => r.advertiser) := by
        rw [← hx]
        exact (List.nodup_cons.mp (by simpa using hnd)).1
      rw [hcons, if_pos hx, chargeBidder_of_not_mem rest w rev hnotin]
      unfold optimalRevenue
      simp only [List.map_cons, List.sum_cons]
      ring
    · have hfound' : (rest.find? (fun r => r.advertiser == w)).isSome := by
        have h2 := hfound
        rwa [List.find?_cons_of_neg rest (by simp [hx])] at h2
      have ih := optimalRevenue_chargeBidder rest
        (List.nodup_cons.mp (by simpa using hnd)).2 w rev hfound'
      rw [hcons, if_neg hx]
      unfold optimalRevenue at ih ⊢
      simp only [List.map_cons, List.sum_cons, ih]
      ring

theorem greedyScan_ok_cases {bdf : BudgetDf} :
    ∀ {L : List BidRow} {res}, greedyScan bdf L = Except.ok res →
      res = (none, 0) ∨ ∃ r ∈ L, res = (some r.advertiser, r.bid) ∧
        r.bid ≤ budgetOf bdf r.advertiser ∧
        (bdf.find? (fun x => x.advertiser == r.advertiser)).isSome := by
  intro L
  induction L with
  | nil =>
    intro res h
    exact Or.inl (Except.ok.inj h).symm
  | cons row rest ih =>
    intro res h
    unfold greedyScan at h
    cases hfind : bdf.find? (fun x => x.advertiser == row.advertiser) with
    | none => rw [hfind] at h; cases h
    | some br =>
      rw [hfind] at h
      replace h : (if row.bid ≤ br.budget then Except.ok (some row.advertiser, row.bid)
          else greedyScan bdf rest) = Except.ok res := h
      by_cases hc : row.bid ≤ br.budget
      · rw [if_pos hc] at h
        refine Or.inr ⟨row, by simp, (Except.ok.inj h).symm, ?_, by simp [hfind]⟩
        rw [budgetOf_eq_of_find hfind]
        exact hc
      · rw [if_neg hc] at h
        rcases ih h with h1 | ⟨r, hr, hres⟩
        · exact Or.inl h1
        · exact Or.inr ⟨r, by simp [hr], hres⟩

theorem balanceScan_ok_cases {interested : List BidRow} :
    ∀ {L : List LabeledBudgetRow} {res}, balanceScan interested L = Except.ok res →
      res = (none, 0) ∨ ∃ row ∈ L, ∃ b ∈ interested, b.advertiser = row.advertiser ∧
        res = (some row.advertiser, b.bid) ∧ b.bid ≤ row.budget := by
  intro L
  induction L with
  | nil =>
    intro res h
    exact Or.inl (Except.ok.inj h).symm
  | cons row rest ih =>
    intro res h
    unfold balanceScan at h
    cases hfind : interested.find? (fun r => r.advertiser == row.advertiser) with
    | none => rw [hfind] at h; cases h
    | some b =>
      rw [hfind] at h
      replace h : (if b.bid ≤ row.budget then Except.ok (some row.advertiser, b.bid)
          else balanceScan interested rest) = Except.ok res := h
      by_cases hc : b.bid ≤ row.budget
      · rw [if_pos hc] at h
        exact Or.inr ⟨row, by simp, b, List.mem_of_find?_eq_some hfind,
          by simpa using List.find?_some hfind, (Except.ok.inj h).symm, hc⟩
      · rw [if_neg hc] at h
        rcases ih h with h1 | ⟨row', hrow', hres⟩
        · exact Or.inl h1
        · exact Or.inr ⟨row', by simp [hrow'], hres⟩

theorem msvvScan_ok_cases {interested : List BidRow} {ib : List LabeledBudgetRow} :
    ∀ {S : List (Nat × ℝ)} {res}, msvvScan interested ib S = Except.ok res →
      res = (none, 0) ∨ ∃ w, ∃ b ∈ interested, b.advertiser = w ∧
        ∃ row, ib.find? (fun r => r.label == w) = some row ∧
          res = (some w, b.bid) ∧ b.bid ≤ row.budget := by
  intro S
  induction S with
  | nil =>
    intro res h
    exact Or.inl (Except.ok.inj h).symm
  | cons p rest ih =>
    intro res h
    obtain ⟨bidder, s⟩ := p
    unfold msvvScan at h
    cases hfind : interested.find? (fun r => r.advertiser == bidder) with
    | none => rw [hfind] at h; cases h
    | some b =>
      rw [hfind] at h
      cases hfind2 : ib.find? (fun r => r.label == bidder) with
      | none => rw [hfind2] at h; cases h
      | some row =>
        rw [hfind2] at h
        replace h : (if b.bid ≤ row.budget then Except.ok (some bidder, b.bid)
            else msvvScan interested ib rest) = Except.ok res := h
        by_cases hc : b.bid ≤ row.budget
        · rw [if_pos hc] at h
          exact Or.inr ⟨bidder, b, List.mem_of_find?_eq_some hfind,
            by simpa using List.find?_some hfind, row, hfind2, (Except.ok.inj h).symm, hc⟩
        · rw [if_neg hc] at h
          exact ih h

theorem exceptBind_ok' {ε α β : Type} {x : Except ε α} {g : α → Except ε β} {b : β}
    (h : (x >>= g) = Except.ok b) : ∃ a, x = Except.ok a ∧ g a = Except.ok b := by
  cases x with
  | error e =>
    have hc : (Except.error e : Except ε β) = Except.ok b := h
    cases hc
  | ok a => exact ⟨a, rfl, h⟩

theorem select_ok_cases {algo : String} {interested : List BidRow} {bdf origBdf : BudgetDf}
    {res : Option Nat × ℚ}
    (haligned : Aligned bdf)
    (h : selectBidder algo interested bdf origBdf = Except.ok res) :
    res = (none, 0) ∨ ∃ w, ∃ b ∈ interested, b.advertiser = w ∧ res = (some w, b.bid) ∧
      b.bid ≤ budgetOf bdf w ∧ (bdf.find? (fun r => r.advertiser == w)).isSome := by
  unfold selectBidder at h
  by_cases hg : algo = "greedy"
  · rw [if_pos hg] at h
    unfold greedy at h
    rcases greedyScan_ok_cases h with h1 | ⟨r, hr, hres, hra, hsom⟩
    · exact Or.inl h1
    · have hrmem : r ∈ interested := (List.perm_insertionSort greedyRel interested).mem_iff.mp hr
      exact Or.inr ⟨r.advertiser, r, hrmem, rfl, hres, hra, hsom⟩
  · rw [if_neg hg] at h
    by_cases hb : algo = "balance"
    · rw [if_pos hb] at h
      unfold balance at h
      rcases balanceScan_ok_cases h with h1 | ⟨row, hrow, b, hbmem, hbadv, hres, hbb⟩
      · exact Or.inl h1
      · have hrowfibb : row ∈ find_interested_bidder_budget_df interested bdf :=
          (List.perm_insertionSort balanceRel _).mem_iff.mp hrow
        have hrowri : row ∈ resetIndex bdf := List.mem_of_mem_filter hrowfibb
        have hbud := resetIndex_row_budgetOf haligned hrowri
        have hsom := resetIndex_advertiser_isSome hrowri
        exact Or.inr ⟨row.advertiser, b, hbmem, hbadv, hres, by rw [hbud]; exact hbb, hsom⟩
    · rw [if_neg hb] at h
      by_cases hm : algo = "msvv"
      · rw [if_pos hm] at h
        unfold msvv at h
        obtain ⟨scale, hscale, hscan⟩ := exceptBind_ok' h
        rcases msvvScan_ok_cases hscan with h1 | ⟨w, b, hbmem, hbadv, row, hrowfind, hres, hbb⟩
        · exact Or.inl h1
        · have hrowib : row ∈ find_interested_bidder_budget_df interested bdf :=
            List.mem_of_find?_eq_some hrowfind
          have hlab : row.label = w := by simpa using List.find?_some hrowfind
          have hadv : row.advertiser = w := by
            rw [← fibb_label_eq_advertiser haligned hrowib, hlab]
          have hrowri : row ∈ resetIndex bdf := List.mem_of_mem_filter hrowib
          have hbud := resetIndex_row_budgetOf haligned hrowri
          have hsom := resetIndex_advertiser_isSome hrowri
          rw [hadv] at hbud hsom
          exact Or.inr ⟨w, b, hbmem, hbadv, hres, by rw [hbud]; exact hbb, hsom⟩
      · rw [if_neg hm] at h
        cases h

theorem adwordsStep_ok {algo : String} {df : BidderDf} {origBdf : BudgetDf}
    {st st' : PassState} {q : String}
    (haligned : Aligned st.budgets)
    (hbids : ∀ r ∈ df, 0 ≤ r.bid)
    (h : adwordsStep algo df origBdf st q = Except.ok st') :
    Aligned st'.budgets ∧
    st.total_revenue ≤ st'.total_revenue ∧
    (∀ a, budgetOf st'.budgets a ≤ budgetOf st.budgets a) ∧
    (∀ a, 0 ≤ budgetOf st.budgets a → 0 ≤ budgetOf st'.budgets a) ∧
    optimalRevenue st'.budgets =
      optimalRevenue st.budgets - (st'.total_revenue - st.total_revenue) := by
  unfold adwordsStep at h
  obtain ⟨interested, hint, h2⟩ := exceptBind_ok' h
  obtain ⟨res, hres, h3⟩ := exceptBind_ok' h2
  have hintdf : ∀ b ∈ interested, b ∈ df := by
    replace hint : (if (df.filter (fun r => r.keyword == q)).isEmpty then
        (Except.error Err.keyError : Except Err (List BidRow))
        else Except.ok (df.filter (fun r => r.keyword == q))) = Except.ok interested := hint
    by_cases he : (df.filter (fun r => r.keyword == q)).isEmpty
    · rw [if_pos he] at hint; cases hint
    · rw [if_neg he] at hint
      intro b hb
      have hif : interested = df.filter (fun r => r.keyword == q) := (Except.ok.inj hint).symm
      rw [hif] at hb
      exact List.mem_of_mem_filter hb
  rcases select_ok_cases haligned hres with rfl | ⟨w, b, hbmem, hbadv, rfl, hbb, hsom⟩
  · replace h3 : Except.ok (⟨st.budgets, st.total_revenue + 0⟩ : PassState) = Except.ok st' := h3
    obtain rfl : (⟨st.budgets, st.total_revenue + 0⟩ : PassState) = st' := Except.ok.inj h3
    refine ⟨haligned, by simp, fun a => le_refl _, fun a ha => ha, by simp⟩
  · replace h3 : (match st.budgets.find? (fun r => r.advertiser == w) with
      | none => Except.error Err.keyError
      | some _ => Except.ok (⟨chargeBidder st.budgets w b.bid, st.total_revenue + b.bid⟩ : PassState)) =
      Except.ok st' := h3
    obtain ⟨r0, hr0⟩ := Option.isSome_iff_exists.mp hsom
    rw [hr0] at h3
    replace h3 : Except.ok (⟨chargeBidder st.budgets w b.bid, st.total_revenue + b.bid⟩ : PassState) =
      Except.ok st' := h3
    obtain rfl : (⟨chargeBidder st.budgets w b.bid, st.total_revenue + b.bid⟩ : PassState) = st' :=
      Except.ok.inj h3
    have hbidnn : 0 ≤ b.bid := hbids b (hintdf b hbmem)
    refine ⟨aligned_chargeBidder haligned w b.bid, by simp [hbidnn], ?_, ?_, ?_⟩
    · intro a
      by_cases ha : a = w
      · subst ha
        show budgetOf (chargeBidder st.budgets a b.bid) a ≤ budgetOf st.budgets a
        rw [budgetOf_chargeBidder_self st.budgets a b.bid hsom]
        linarith
      · show budgetOf (chargeBidder st.budgets w b.bid) a ≤ budgetOf st.budgets a
        rw [budgetOf_chargeBidder_ne st.budgets w b.bid a ha]
    · intro a ha
      by_cases haw : a = w
      · subst haw
        show 0 ≤ budgetOf (chargeBidder st.budgets a b.bid) a
        rw [budgetOf_chargeBidder_self st.budgets a b.bid hsom]
        linarith
      · show 0 ≤ budgetOf (chargeBidder st.budgets w b.bid) a
        rw [budgetOf_chargeBidder_ne st.budgets w b.bid a haw]
        exact ha
    · show optimalRevenue (chargeBidder st.budgets w b.bid) =
        optimalRevenue st.budgets - (st.total_revenue + b.bid - st.total_revenue)
      rw [optimalRevenue_chargeBidder st.budgets (aligned_advertisers_nodup haligned) w b.bid hsom]
      ring

theorem adwords_fold_ok {algo : String} {df : BidderDf} {origBdf : BudgetDf}
    (hbids : ∀ r ∈ df, 0 ≤ r.bid) :
    ∀ (queries : List String) (st st' : PassState),
      Aligned st.budgets →
      queries.foldlM (adwordsStep algo df origBdf) st = Except.ok st' →
      Aligned st'.budgets ∧
      st.total_revenue ≤ st'.total_revenue ∧
      (∀ a, budgetOf st'.budgets a ≤ budgetOf st.budgets a) ∧
      (∀ a, 0 ≤ budgetOf st.budgets a → 0 ≤ budgetOf st'.budgets a) ∧
      optimalRevenue st'.budgets =
        optimalRevenue st.budgets - (st'.total_revenue - st.total_revenue)
  | [], st, st', hal, h => by
    have hst : st = st' := Except.ok.inj h
    subst hst
    exact ⟨hal, le_refl _, fun a => le_refl _, fun a ha => ha, by ring⟩
  | q :: rest, st, st', hal, h => by
    rw [List.foldlM_cons] at h
    obtain ⟨st1, hst1, hrest⟩ := exceptBind_ok' h
    obtain ⟨hal1, hrev1, hdec1, hnn1, hopt1⟩ := adwordsStep_ok hal hbids hst1
    obtain ⟨hal2, hrev2, hdec2, hnn2, hopt2⟩ := adwords_fold_ok hbids rest st1 st' hal1 hrest
    refine ⟨hal2, le_trans hrev1 hrev2, fun a => le_trans (hdec2 a) (hdec1 a),
      fun a ha => hnn2 a (hnn1 a ha), ?_⟩
    rw [hopt2, hopt1]
    ring

theorem adwords_ok {algo : String} {df : BidderDf} {bdf : BudgetDf} {queries : List String}
    {rev : ℚ} {bfin : BudgetDf}
    (haligned : Aligned bdf)
    (hbids : ∀ r ∈ df, 0 ≤ r.bid)
    (h : adwords df bdf queries algo = Except.ok (rev, bfin)) :
    Aligned bfin ∧ 0 ≤ rev ∧
    (∀ a, budgetOf bfin a ≤ budgetOf bdf a) ∧
    (∀ a, 0 ≤ budgetOf bdf a → 0 ≤ budgetOf bfin a) ∧
    optimalRevenue bfin = optimalRevenue bdf - rev := by
  unfold adwords at h
  obtain ⟨st, hst, hres⟩ := exceptBind_ok' h
  obtain ⟨hb, hr⟩ : rev = st.total_revenue ∧ bfin = st.budgets := by
    have := Except.ok.inj hres
    constructor
    · exact (congrArg Prod.fst this).symm
    · exact (congrArg (fun p => p.2) this).symm
  subst hb; subst hr
  have := adwords_fold_ok hbids queries ⟨bdf, 0⟩ st haligned hst
  obtain ⟨hal, hrev, hdec, hnn, hopt⟩ := this
  refine ⟨hal, by simpa using hrev, hdec, hnn, by rw [hopt]; ring⟩

theorem crTrials_ok {df : BidderDf} {algo : String}
    (hbids : ∀ r ∈ df, 0 ≤ r.bid) :
    ∀ (n : Nat) (st st' : CrState), Aligned st.budgets →
      crTrials df algo n st = Except.ok st' →
      Aligned st'.budgets ∧ st.total_revenue ≤ st'.total_revenue ∧
      (∀ a, 0 ≤ budgetOf st.budgets a → 0 ≤ budgetOf st'.budgets a) ∧
      optimalRevenue st'.budgets =
        optimalRevenue st.budgets - (st'.total_revenue - st.total_revenue) ∧
      st'.queries.Perm st.queries
  | 0, st, st', hal, h => by
    have hst : st = st' := Except.ok.inj h
    subst hst
    exact ⟨hal, le_refl _, fun a ha => ha, by ring, List.Perm.refl _⟩
  | Nat.succ n, st, st', hal, h => by
    unfold crTrials at h
    obtain ⟨res, hres, hrest⟩ := exceptBind_ok' h
    obtain ⟨hal1, hrev1, hdec1, hnn1, hopt1⟩ := adwords_ok hal hbids hres
    obtain ⟨hal2, hrev2, hnn2, hopt2, hperm2⟩ := crTrials_ok hbids n _ st' hal1 hrest
    refine ⟨hal2, ?_, ?_, ?_, hperm2.trans (shuffleOnce_fst_perm st.gen st.queries)⟩
    · calc st.total_revenue ≤ st.total_revenue + res.1 := by linarith
      _ ≤ st'.total_revenue := hrev2
    · intro a ha
      exact hnn2 a (hnn1 a ha)
    · have h1 : optimalRevenue res.2 = optimalRevenue st.budgets - res.1 := hopt1
      have h2 : optimalRevenue st'.budgets =
          optimalRevenue res.2 - (st'.total_revenue - (st.total_revenue + res.1)) := hopt2
      rw [h2, h1]
      ring

theorem crTrials_revs {df : BidderDf} {algo : String} :
    ∀ (n : Nat) (st st' : CrState),
      crTrials df algo n st = Except.ok st' →
      (st'.gen, st'.queries) = shufflePair^[n] (st.gen, st.queries) ∧
      ∃ revs : List ℚ, revs.length = n ∧
        st'.total_revenue = st.total_revenue + revs.sum ∧
        ∀ i, i < n → ∃ b b', adwords df b (shufflePair^[i+1] (st.gen, st.queries)).2 algo =
          Except.ok (revs.getD i 0, b')
  | 0, st, st', h => by
    have hst : st = st' := Except.ok.inj h
    subst hst
    exact ⟨rfl, [], rfl, by simp, fun i hi => absurd hi (Nat.not_lt_zero i)⟩
  | Nat.succ n, st, st', h => by
    unfold crTrials at h
    obtain ⟨res, hres, hrest⟩ := exceptBind_ok' h
    obtain ⟨hgen, revs', hlen, hsum, htrials⟩ := crTrials_revs n _ st' hrest
    have hsp : shufflePair (st.gen, st.queries) =
        ((shuffleOnce st.gen st.queries).2, (shuffleOnce st.gen st.queries).1) := rfl
    constructor
    · rw [Function.iterate_succ_apply]
      rw [← hsp] at hgen
      exact hgen
    · refine ⟨res.1 :: revs', by simp [hlen], by simp at hsum ⊢; rw [hsum]; ring, ?_⟩
      intro i hi
      cases i with
      | zero =>
        refine ⟨st.budgets, res.2, ?_⟩
        have h1 : (shufflePair^[1] (st.gen, st.queries)).2 = (shuffleOnce st.gen st.queries).1 := by
          rw [Function.iterate_one, hsp]
        rw [h1]
        simpa using hres
      | succ j =>
        have hj : j < n := by omega
        obtain ⟨b, b', hb⟩ := htrials j hj
        refine ⟨b, b', ?_⟩
        have h2 : shufflePair^[j+1] ((shuffleOnce st.gen st.queries).2, (shuffleOnce st.gen st.queries).1) =
            shufflePair^[j+1+1] (st.gen, st.queries) := by
          rw [Function.iterate_succ_apply (f := shufflePair) (n := j+1), hsp]
        rw [← h2]
        simpa using hb

theorem msvv_mis_step (x x₀ : ℚ) (hx : x < 1) (_hx0 : x₀ ≠ 0) :
    msvv [⟨"k", 1, 10⟩, ⟨"k", 0, 1⟩] (bdfMis x) (bdfMis x₀) = Except.ok (some 1, 10) := by
  have hib : find_interested_bidder_budget_df [⟨"k", 1, 10⟩, ⟨"k", 0, 1⟩] (bdfMis x) =
      [⟨0, 1, x⟩, ⟨1, 0, 10⟩] := rfl
  have horig : ∀ row ∈ ([⟨0, 1, x⟩, ⟨1, 0, 10⟩] : List LabeledBudgetRow),
      ((bdfMis x₀).find? (fun r => r.advertiser == row.advertiser)).isSome := by
    intro row hrow
    simp only [List.mem_cons, List.not_mem_nil, or_false] at hrow
    rcases hrow with rfl | rfl <;> rfl
  have hint : ∀ row ∈ ([⟨0, 1, x⟩, ⟨1, 0, 10⟩] : List LabeledBudgetRow),
      (([⟨"k", 1, 10⟩, ⟨"k", 0, 1⟩] : List BidRow).find?
        (fun r => r.advertiser == row.advertiser)).isSome := by
    intro row hrow
    simp only [List.mem_cons, List.not_mem_nil, or_false] at hrow
    rcases hrow with rfl | rfl <;> rfl
  have hscale := msvv_scale_ok [⟨"k", 1, 10⟩, ⟨"k", 0, 1⟩] (bdfMis x₀) _ horig hint
  unfold msvv
  simp only [hib]
  rw [hscale, exceptBindOk]
  set s1 := scaledBidOf [⟨"k", 1, 10⟩, ⟨"k", 0, 1⟩] (bdfMis x₀) ⟨0, 1, x⟩ with hs1
  set s0 := scaledBidOf [⟨"k", 1, 10⟩, ⟨"k", 0, 1⟩] (bdfMis x₀) ⟨1, 0, 10⟩ with hs0
  have hmap : ([⟨0, 1, x⟩, ⟨1, 0, 10⟩] : List LabeledBudgetRow).map
      (fun row => (row.advertiser, scaledBidOf [⟨"k", 1, 10⟩, ⟨"k", 0, 1⟩] (bdfMis x₀) row)) =
      [(1, s1), (0, s0)] := rfl
  rw [hmap]
  have hsort : List.insertionSort msvvRel [(1, s1), (0, s0)] =
      if msvvRel (1, s1) (0, s0) then [(1, s1), (0, s0)] else [(0, s0), (1, s1)] := by
    show List.orderedInsert msvvRel (1, s1) (List.orderedInsert msvvRel (0, s0) []) = _
    show List.orderedInsert msvvRel (1, s1) [(0, s0)] = _
    show (if msvvRel (1, s1) (0, s0) then (1, s1) :: [(0, s0)]
      else (0, s0) :: List.orderedInsert msvvRel (1, s1) []) = _
    by_cases hord : msvvRel (1, s1) (0, s0)
    · rw [if_pos hord, if_pos hord]
    · rw [if_neg hord, if_neg hord]
      rfl
  rw [hsort]
  by_cases hord : msvvRel (1, s1) (0, s0)
  · rw [if_pos hord]
    rfl
  · rw [if_neg hord]
    show (if (1 : ℚ) ≤ x then Except.ok (some 0, (1 : ℚ))
      else msvvScan [⟨"k", 1, 10⟩, ⟨"k", 0, 1⟩] [⟨0, 1, x⟩, ⟨1, 0, 10⟩] [(1, s1)]) =
      Except.ok (some 1, 10)
    rw [if_neg (by linarith)]
    rfl

theorem adwordsStep_mis (x' x t : ℚ) (hx' : x' < 1) (hx0 : x ≠ 0) :
    adwordsStep "msvv" dfMis (bdfMis x) ⟨bdfMis x', t⟩ "k" =
      Except.ok ⟨bdfMis (x' - 10), t + 10⟩ := by
  have hint : interestedBidders dfMis "k" = Except.ok [⟨"k", 1, 10⟩, ⟨"k", 0, 1⟩] := rfl
  have hsel : selectBidder "msvv" [⟨"k", 1, 10⟩, ⟨"k", 0, 1⟩] (bdfMis x') (bdfMis x) =
      Except.ok (some 1, 10) := by
    unfold selectBidder
    rw [if_neg (by decide), if_neg (by decide), if_pos rfl]
    exact msvv_mis_step x' x hx' hx0
  have hsettle : settle ⟨bdfMis x', t⟩ ((some 1, 10) : Option Nat × ℚ) =
      Except.ok ⟨bdfMis (x' - 10), t + 10⟩ := rfl
  unfold adwordsStep
  rw [hint, exceptBindOk, hsel, exceptBindOk, hsettle]

theorem adwords_mis_one (x : ℚ) (hx : x < 1) (hx0 : x ≠ 0) :
    adwords dfMis (bdfMis x) ["k"] "msvv" = Except.ok (0 + 10, bdfMis (x - 10)) := by
  unfold adwords
  rw [List.foldlM_cons, adwordsStep_mis x x 0 hx hx0, exceptBindOk]
  rfl

theorem adwords_mis_two (x : ℚ) (hx : x < 1) (hx0 : x ≠ 0) :
    adwords dfMis (bdfMis x) ["k", "k"] "msvv" =
      Except.ok (0 + 10 + 10, bdfMis (x - 10 - 10)) := by
  unfold adwords
  rw [List.foldlM_cons, adwordsStep_mis x x 0 hx hx0, exceptBindOk,
    List.foldlM_cons, adwordsStep_mis (x - 10) x (0 + 10) (by linarith) hx0, exceptBindOk]
  rfl

theorem crTrials_mis : ∀ (n m : Nat) (g : Nat) (t : ℚ),
    ∃ g', crTrials dfMis "msvv" n ⟨g, ["k", "k"], bdfMis (1/2 - 20*m), t⟩ =
      Except.ok ⟨g', ["k", "k"], bdfMis (1/2 - 20*m - 20*n), t + 20*n⟩
  | 0, m, g, t => by
    refine ⟨g, ?_⟩
    have h1 : (1/2 - 20*(m:ℚ) - 20*((0:Nat):ℚ)) = 1/2 - 20*m := by push_cast; ring
    have h2 : t + 20*((0:Nat):ℚ) = t := by push_cast; ring
    rw [h1, h2]
    rfl
  | Nat.succ n, m, g, t => by
    have hxlt : (1/2 - 20*(m:ℚ)) < 1 := by
      have : (0:ℚ) ≤ (m:ℚ) := Nat.cast_nonneg m
      nlinarith
    have hxnz : (1/2 - 20*(m:ℚ)) ≠ 0 := by
      rcases Nat.eq_zero_or_pos m with hm | hm
      · subst hm
        norm_num
      · have : (1:ℚ) ≤ (m:ℚ) := by exact_mod_cast hm
        intro hc
        nlinarith
    have hshuf : (shuffleOnce g ["k", "k"]).1 = ["k", "k"] :=
      shuffleOnce_of_const g ["k", "k"] "k" (by intro y hy; simpa using hy)
    obtain ⟨g', hrec⟩ := crTrials_mis n (m+1) (shuffleOnce g ["k", "k"]).2 (t + 20)
    refine ⟨g', ?_⟩
    show (adwords dfMis (bdfMis (1/2 - 20*(m:ℚ))) (shuffleOnce g ["k", "k"]).1 "msvv" >>= fun res =>
        crTrials dfMis "msvv" n
          ⟨(shuffleOnce g ["k", "k"]).2, (shuffleOnce g ["k", "k"]).1, res.2, t + res.1⟩) =
      Except.ok ⟨g', ["k", "k"], bdfMis (1/2 - 20*(m:ℚ) - 20*((n+1 : Nat):ℚ)),
        t + 20*((n+1 : Nat):ℚ)⟩
    rw [hshuf, adwords_mis_two _ hxlt hxnz]
    simp only [exceptBindOk]
    have e1 : (1/2 - 20*(m:ℚ) - 10 - 10) = 1/2 - 20*((m+1 : Nat):ℚ) := by push_cast; ring
    have e2 : t + (0 + 10 + 10 : ℚ) = t + 20 := by ring
    rw [e1, e2, hrec]
    have e3 : (1/2 - 20*((m+1 : Nat):ℚ) - 20*(n:ℚ)) = 1/2 - 20*(m:ℚ) - 20*((n+1 : Nat):ℚ) := by
      push_cast; ring
    have e4 : t + 20 + 20*(n:ℚ) = t + 20*((n+1 : Nat):ℚ) := by push_cast; ring
    rw [e3, e4]

/-- Claim C8 counterexample: on a catalog whose advertiser ids do not match
their budget-table positions (`dfMis`/`bdfMis`), the estimator returns the
ratio `40/21 > 1` even with `optimal_revenue` equal to the sum of all recorded
budgets: the mislabeled affordability lookup lets MSVV charge advertiser 1 its
bid of 10 on every query against advertiser 0's untouched budget, so revenue
accumulates without bound while budgets go negative. -/
theorem ratio_above_one_on_misaligned_cx :
    competitive_ratio dfMis (bdfMis (1/2)) ["k", "k"] "msvv" (optimalRevenue (bdfMis (1/2))) =
      Except.ok (40/21, ["k", "k"], bdfMis (1/2 - 2000)) ∧ ¬ ((40:ℚ)/21 ≤ 1) := by
  constructor
  · obtain ⟨g', hcr⟩ := crTrials_mis 100 0 0 0
    have e0 : (1/2 - 20*((0:Nat):ℚ)) = 1/2 := by push_cast; ring
    rw [e0] at hcr
    unfold competitive_ratio
    rw [hcr, exceptBindOk]
    have e1 : ((0 + 20*((100:Nat):ℚ)) / 100) / optimalRevenue (bdfMis (1/2)) = 40/21 := by
      show ((0 + 20*((100:Nat):ℚ)) / 100) / (1/2 + (10 + 0)) = 40/21
      norm_num
    have e2 : (1/2 - 20*((100:Nat):ℚ)) = 1/2 - 2000 := by push_cast; ring
    show Except.ok ((0 + 20*((100:Nat):ℚ)) / 100 / optimalRevenue (bdfMis (1/2)),
      ["k", "k"], bdfMis (1/2 - 20*((100:Nat):ℚ))) = _
    rw [e1, e2]
  · norm_num

theorem shufflePair_iterate_perm :
    ∀ (n : Nat) (g : Nat) (qs : List String), (shufflePair^[n] (g, qs)).2.Perm qs
  | 0, g, qs => List.Perm.refl qs
  | Nat.succ n, g, qs => by
    rw [Function.iterate_succ_apply]
    have h1 : shufflePair (g, qs) = ((shuffleOnce g qs).2, (shuffleOnce g qs).1) := rfl
    rw [h1]
    exact (shufflePair_iterate_perm n _ _).trans (shuffleOnce_fst_perm g qs)

theorem cr_formula_thm (df : BidderDf) (bdf : BudgetDf) (queries : List String)
    (algo : String) (O r : ℚ) (qf : List String) (bf : BudgetDf)
    (h : competitive_ratio df bdf queries algo O = Except.ok (r, qf, bf)) :
    ∃ revs : List ℚ, revs.length = 100 ∧
      r = (revs.sum / 100) / O ∧
      ∀ i, i < 100 →
        (shufflePair^[i+1] (0, queries)).2.Perm queries ∧
        ∃ b b', adwords df b (shufflePair^[i+1] (0, queries)).2 algo =
          Except.ok (revs.getD i 0, b') := by
  unfold competitive_ratio at h
  obtain ⟨st, hst, hres⟩ := exceptBind_ok' h
  have hr : r = st.total_revenue / 100 / O := by
    have := Except.ok.inj hres
    exact (congrArg (fun p => p.1) this).symm
  obtain ⟨hgen, revs, hlen, hsum, htrials⟩ := crTrials_revs 100 _ st hst
  refine ⟨revs, hlen, ?_, ?_⟩
  · rw [hr]
    show st.total_revenue / 100 / O = revs.sum / 100 / O
    have : st.total_revenue = 0 + revs.sum := hsum
    rw [this]
    ring_nf
  · intro i hi
    exact ⟨shufflePair_iterate_perm (i+1) 0 queries, htrials i hi⟩

theorem cr_final_queries_thm (df : BidderDf) (bdf : BudgetDf) (queries : List String)
    (algo : String) (O r : ℚ) (qf : List String) (bf : BudgetDf)
    (h : competitive_ratio df bdf queries algo O = Except.ok (r, qf, bf)) :
    qf = (shufflePair^[100] (0, queries)).2 ∧ qf.Perm queries := by
  unfold competitive_ratio at h
  obtain ⟨st, hst, hres⟩ := exceptBind_ok' h
  have hq : qf = st.queries := by
    have := Except.ok.inj hres
    exact (congrArg (fun p => p.2.1) this).symm
  obtain ⟨hgen, -⟩ := crTrials_revs 100 _ st hst
  have hq2 : st.queries = (shufflePair^[100] ((0:Nat), queries)).2 :=
    congrArg Prod.snd hgen
  refine ⟨by rw [hq, hq2], ?_⟩
  rw [hq, hq2]
  exact shufflePair_iterate_perm 100 0 queries

theorem budgetOf_nonneg_of_rows {bdf : BudgetDf} (hnn : ∀ x ∈ bdf, 0 ≤ x.budget) :
    ∀ a, 0 ≤ budgetOf bdf a := by
  intro a
  unfold budgetOf
  cases hfind : bdf.find? (fun r => r.advertiser == a) with
  | none => exact le_refl 0
  | some r => exact hnn r (List.mem_of_find?_eq_some hfind)

theorem optimalRevenue_nonneg {bdf : BudgetDf} (haligned : Aligned bdf)
    (hnn : ∀ a, 0 ≤ budgetOf bdf a) : 0 ≤ optimalRevenue bdf := by
  unfold optimalRevenue
  apply List.sum_nonneg
  intro x hx
  obtain ⟨row, hrow, rfl⟩ := List.mem_map.mp hx
  have := find?_advertiser_of_mem (aligned_advertisers_nodup haligned) hrow
  have hb : budgetOf bdf row.advertiser = row.budget := budgetOf_eq_of_find this
  rw [← hb]
  exact hnn row.advertiser

theorem ratio_bounds_thm (df : BidderDf) (bdf : BudgetDf) (queries : List String)
    (algo : String) (O r : ℚ) (qf : List String) (bf : BudgetDf)
    (haligned : Aligned bdf)
    (hbids : ∀ x ∈ df, 0 ≤ x.bid)
    (hnn : ∀ x ∈ bdf, 0 ≤ x.budget)
    (hO : optimalRevenue bdf ≤ O) (hOpos : 0 < O)
    (h : competitive_ratio df bdf queries algo O = Except.ok (r, qf, bf)) :
    0 ≤ r ∧ r ≤ 1 := by
  unfold competitive_ratio at h
  obtain ⟨st, hst, hres⟩ := exceptBind_ok' h
  have hr : r = st.total_revenue / 100 / O := by
    have := Except.ok.inj hres
    exact (congrArg (fun p => p.1) this).symm
  obtain ⟨half, htot, hnnf, hopt, -⟩ := crTrials_ok hbids 100 _ st haligned hst
  have htot0 : (0:ℚ) ≤ st.total_revenue := by simpa using htot
  have hnn0 : ∀ a, 0 ≤ budgetOf bdf a := budgetOf_nonneg_of_rows hnn
  have hnnf' : ∀ a, 0 ≤ budgetOf st.budgets a := fun a => hnnf a (hnn0 a)
  have hoptf : 0 ≤ optimalRevenue st.budgets := optimalRevenue_nonneg half hnnf'
  have hople : st.total_revenue ≤ optimalRevenue bdf := by
    have : optimalRevenue st.budgets = optimalRevenue bdf - (st.total_revenue - 0) := hopt
    simp only [sub_zero] at this
    linarith
  constructor
  · rw [hr]
    positivity
  · rw [hr]
    rw [div_le_one hOpos, div_le_iff₀ (by norm_num : (0:ℚ) < 100)]
    nlinarith

/-- Claim C3 counterexample: on a catalog whose only advertiser has id 2 (so
the id differs from its budget-table position 0), MSVV raises `KeyError` at the
affordability lookup of source line 142 although that bidder is affordable
(bid 10 against budget 100), instead of selecting it or returning `(None, 0)`. -/
theorem msvv_positional_lookup_cx :
    msvv [⟨"k", 2, 10⟩] [⟨2, 100⟩] [⟨2, 100⟩] = Except.error Err.keyError ∧
    (10:ℚ) ≤ budgetOf [⟨2, 100⟩] 2 := by
  constructor
  · rfl
  · decide

unseal Rat.add Rat.sub Rat.mul Rat.inv in
theorem greedy_selects_max_affordable_bid_witness :
    (∀ r ∈ ([⟨"shoes", 1, 10⟩, ⟨"shoes", 2, 8⟩] : List BidRow),
      (([⟨1, 5⟩, ⟨2, 20⟩] : BudgetDf).find? (fun br => br.advertiser == r.advertiser)).isSome) ∧
    (∃ res, greedy [⟨"shoes", 1, 10⟩, ⟨"shoes", 2, 8⟩] [⟨1, 5⟩, ⟨2, 20⟩] = Except.ok res) :=
  ⟨by decide, (greedy_selects_max_affordable_bid _ _ (by decide)).1⟩

theorem msvv_matches_spec_on_aligned_witness :
    (Aligned [⟨0, 100⟩, ⟨1, 50⟩] ∧
      (∀ row ∈ find_interested_bidder_budget_df [⟨"k", 0, 10⟩, ⟨"k", 1, 1⟩] [⟨0, 100⟩, ⟨1, 50⟩],
        (([⟨0, 100⟩, ⟨1, 50⟩] : BudgetDf).find?
          (fun r => r.advertiser == row.advertiser)).isSome) ∧
      (∀ row ∈ find_interested_bidder_budget_df [⟨"k", 0, 10⟩, ⟨"k", 1, 1⟩] [⟨0, 100⟩, ⟨1, 50⟩],
        budgetOf [⟨0, 100⟩, ⟨1, 50⟩] row.advertiser ≠ 0)) ∧
    (∃ res, msvv [⟨"k", 0, 10⟩, ⟨"k", 1, 1⟩] [⟨0, 100⟩, ⟨1, 50⟩] [⟨0, 100⟩, ⟨1, 50⟩] =
      Except.ok res) :=
  ⟨⟨by decide, by decide, by decide⟩,
    (msvv_matches_spec_on_aligned _ _ _ (by decide) (by decide) (by decide)).1⟩

/-- Claim C6 (amended): provided every advertiser's id equals its row position
in the budget table and all bids are non-negative, each advertiser's recorded
budget is non-increasing at every query step of a pass and non-negative
budgets stay non-negative, for whatever strategy string is dispatched (so in
particular for `greedy`, `balance` and `msvv`); over a whole `adwords` pass the
final budgets lie between `0` and the entry budgets, and the revenue is
non-negative.  Without the alignment precondition the claim is false: see the
counterexample, where MSVV drives a budget to `-19/2`. -/
theorem budgets_monotone_on_aligned (algo : String) (df : BidderDf) (origBdf : BudgetDf)
    (hbids : ∀ r ∈ df, 0 ≤ r.bid) :
    (∀ (st st' : PassState) (q : String), Aligned st.budgets →
      adwordsStep algo df origBdf st q = Except.ok st' →
      (∀ a, budgetOf st'.budgets a ≤ budgetOf st.budgets a) ∧
      (∀ a, 0 ≤ budgetOf st.budgets a → 0 ≤ budgetOf st'.budgets a)) ∧
    (∀ (bdf : BudgetDf) (queries : List String) (rev : ℚ) (bfin : BudgetDf), Aligned bdf →
      adwords df bdf queries algo = Except.ok (rev, bfin) →
      (∀ a, budgetOf bfin a ≤ budgetOf bdf a) ∧
      (∀ a, 0 ≤ budgetOf bdf a → 0 ≤ budgetOf bfin a) ∧ 0 ≤ rev) := by
  constructor
  · intro st st' q hal hstep
    obtain ⟨-, -, hdec, hnn, -⟩ := adwordsStep_ok hal hbids hstep
    exact ⟨hdec, hnn⟩
  · intro bdf queries rev bfin hal hpass
    obtain ⟨-, hrev, hdec, hnn, -⟩ := adwords_ok hal hbids hpass
    exact ⟨hdec, hnn, hrev⟩

/-- Claim C6 counterexample: one MSVV pass over the single query "k" on the
misaligned catalog charges advertiser 1 its bid of 10 against advertiser 0's
budget (the positional-label lookup of source line 142), driving advertiser
1's remaining budget to `1/2 - 10 < 0`. -/
theorem budget_goes_negative_cx :
    adwords dfMis (bdfMis (1/2)) ["k"] "msvv" = Except.ok (0 + 10, bdfMis (1/2 - 10)) ∧
    budgetOf (bdfMis (1/2 - 10)) 1 < 0 := by
  constructor
  · exact adwords_mis_one (1/2) (by norm_num) (by norm_num)
  · show (1/2 - 10 : ℚ) < 0
    norm_num

unseal Rat.add Rat.sub Rat.mul Rat.inv in
theorem budgets_monotone_on_aligned_witness :
    ((∀ r ∈ ([⟨"q", 0, 10⟩] : BidderDf), 0 ≤ r.bid) ∧ Aligned [⟨0, 10⟩] ∧
      adwordsStep "greedy" [⟨"q", 0, 10⟩] [⟨0, 10⟩] ⟨[⟨0, 10⟩], 0⟩ "q" =
        Except.ok ⟨[⟨0, 0⟩], 10⟩) ∧
    budgetOf [⟨0, 0⟩] 0 ≤ budgetOf [⟨0, 10⟩] 0 :=
  ⟨⟨by decide, by decide, by decide⟩,
    (((budgets_monotone_on_aligned "greedy" [⟨"q", 0, 10⟩] [⟨0, 10⟩] (by decide)).1
      ⟨[⟨0, 10⟩], 0⟩ ⟨[⟨0, 0⟩], 10⟩ "q" (by decide) (by decide)).1) 0⟩

/-- Claim C7: whenever the estimator returns a ratio, that ratio is exactly
(the sum of the 100 per-trial revenues divided by 100) divided by the
`optimal_revenue` argument (in `main`, `optimalRevenue` of the budget table,
the sum of all recorded budgets), where trial `i`'s revenue is the revenue of
an `adwords` pass over the `i`-th permutation of the query sequence produced
by the seed-0 generator, each permutation obtained by shuffling the previous
trial's list. -/
theorem cr_is_avg_of_100_trials (df : BidderDf) (bdf : BudgetDf) (queries : List String)
    (algo : String) (O r : ℚ) (qf : List String) (bf : BudgetDf)
    (h : competitive_ratio df bdf queries algo O = Except.ok (r, qf, bf)) :
    ∃ revs : List ℚ, revs.length = 100 ∧
      r = (revs.sum / 100) / O ∧
      ∀ i, i < 100 →
        (shufflePair^[i+1] (0, queries)).2.Perm queries ∧
        ∃ b b', adwords df b (shufflePair^[i+1] (0, queries)).2 algo =
          Except.ok (revs.getD i 0, b') :=
  cr_formula_thm df bdf queries algo O r qf bf h

set_option maxRecDepth 10000 in
unseal Rat.add Rat.sub Rat.mul Rat.inv in
theorem cr_is_avg_of_100_trials_witness :
    (competitive_ratio [⟨"q", 0, 10⟩] [⟨0, 10⟩] ["q"] "greedy" 10 =
      Except.ok (1/100, ["q"], [⟨0, 0⟩])) ∧
    (∃ revs : List ℚ, revs.length = 100 ∧
      (1:ℚ)/100 = (revs.sum / 100) / 10 ∧
      ∀ i, i < 100 →
        (shufflePair^[i+1] ((0:Nat), ["q"])).2.Perm ["q"] ∧
        ∃ b b', adwords [⟨"q", 0, 10⟩] b (shufflePair^[i+1] ((0:Nat), ["q"])).2 "greedy" =
          Except.ok (revs.getD i 0, b')) :=
  ⟨by decide,
    cr_is_avg_of_100_trials [⟨"q", 0, 10⟩] [⟨0, 10⟩] ["q"] "greedy" 10 (1/100) ["q"] [⟨0, 0⟩]
      (by decide)⟩

/-- Claim C8 (amended): provided every advertiser's id equals its row position
in the budget table, bids are non-negative, entry budgets are non-negative,
and `optimal_revenue` is positive and at least the sum of the entry budgets
(`main` passes the sum of the initial budgets, which dominates the entry
budgets of any pass), every ratio the estimator returns lies in `[0, 1]`, and
the estimator is deterministic: equal inputs give equal results (the embedding
makes its only random source, the seed-0 generator, an explicit pure
function).  Without the alignment precondition the bound is false: see the
counterexample with ratio `40/21`. -/
theorem cr_ratio_bounded_and_deterministic (df : BidderDf) (bdf : BudgetDf)
    (queries : List String) (algo : String) (O r : ℚ) (qf : List String) (bf : BudgetDf)
    (df₂ : BidderDf) (bdf₂ : BudgetDf) (queries₂ : List String) (algo₂ : String) (O₂ : ℚ)
    (haligned : Aligned bdf)
    (hbids : ∀ x ∈ df, 0 ≤ x.bid)
    (hnn : ∀ x ∈ bdf, 0 ≤ x.budget)
    (hO : optimalRevenue bdf ≤ O) (hOpos : 0 < O)
    (h : competitive_ratio df bdf queries algo O = Except.ok (r, qf, bf))
    (heq1 : df₂ = df) (heq2 : bdf₂ = bdf) (heq3 : queries₂ = queries)
    (heq4 : algo₂ = algo) (heq5 : O₂ = O) :
    (0 ≤ r ∧ r ≤ 1) ∧
    competitive_ratio df₂ bdf₂ queries₂ algo₂ O₂ =
      competitive_ratio df bdf queries algo O := by
  constructor
  · exact ratio_bounds_thm df bdf queries algo O r qf bf haligned hbids hnn hO hOpos h
  · rw [heq1, heq2, heq3, heq4, heq5]

set_option maxRecDepth 10000 in
unseal Rat.add Rat.sub Rat.mul Rat.inv in
theorem cr_ratio_bounded_and_deterministic_witness :
    (Aligned [⟨0, 10⟩] ∧ (∀ x ∈ ([⟨"q", 0, 10⟩] : BidderDf), 0 ≤ x.bid) ∧
      (∀ x ∈ ([⟨0, 10⟩] : BudgetDf), 0 ≤ x.budget) ∧
      optimalRevenue [⟨0, 10⟩] ≤ 10 ∧ (0:ℚ) < 10 ∧
      competitive_ratio [⟨"q", 0, 10⟩] [⟨0, 10⟩] ["q"] "greedy" 10 =
        Except.ok (1/100, ["q"], [⟨0, 0⟩])) ∧
    ((0 ≤ (1:ℚ)/100 ∧ (1:ℚ)/100 ≤ 1) ∧
      competitive_ratio [⟨"q", 0, 10⟩] [⟨0, 10⟩] ["q"] "greedy" 10 =
        competitive_ratio [⟨"q", 0, 10⟩] [⟨0, 10⟩] ["q"] "greedy" 10) :=
  ⟨⟨by decide, by decide, by decide, by decide, by decide, by decide⟩,
    cr_ratio_bounded_and_deterministic [⟨"q", 0, 10⟩] [⟨0, 10⟩] ["q"] "greedy" 10
      (1/100) ["q"] [⟨0, 0⟩] [⟨"q", 0, 10⟩] [⟨0, 10⟩] ["q"] "greedy" 10
      (by decide) (by decide) (by decide) (by decide) (by decide) (by decide)
      rfl rfl rfl rfl rfl⟩

/-- Claim C10 (amended): the estimator shuffles the caller's query list in
place, each trial shuffling the previous trial's list, so the list it leaves
behind is the composition of the 100 shuffles applied to the original and is a
permutation of it; it need not differ from the original order (a single-element
or repeated-element list is left unchanged): see the counterexample. -/
theorem cr_queries_are_composed_shuffles (df : BidderDf) (bdf : BudgetDf)
    (queries : List String) (algo : String) (O r : ℚ) (qf : List String) (bf : BudgetDf)
    (h : competitive_ratio df bdf queries algo O = Except.ok (r, qf, bf)) :
    qf = (shufflePair^[100] (0, queries)).2 ∧ qf.Perm queries :=
  cr_final_queries_thm df bdf queries algo O r qf bf h

set_option maxRecDepth 10000 in
unseal Rat.add Rat.sub Rat.mul Rat.inv in
/-- Claim C10 counterexample: with the single-element query list `["q"]` the
estimator returns the caller's list in its original order (each of the 100
shuffles of a one-element list is the identity), contradicting the claim that
the sequence is no longer in its original order after the estimator returns. -/
theorem cr_queries_unchanged_cx :
    competitive_ratio [⟨"q", 0, 10⟩] [⟨0, 10⟩] ["q"] "greedy" 10 =
      Except.ok (1/100, ["q"], [⟨0, 0⟩]) ∧ (["q"] : List String) = ["q"] := by
  constructor
  · decide
  · rfl

set_option maxRecDepth 10000 in
unseal Rat.add Rat.sub Rat.mul Rat.inv in
theorem cr_queries_are_composed_shuffles_witness :
    (competitive_ratio [⟨"q", 0, 10⟩] [⟨0, 10⟩] ["q"] "greedy" 10 =
      Except.ok (1/100, ["q"], [⟨0, 0⟩])) ∧
    ((["q"] : List String) = (shufflePair^[100] ((0:Nat), ["q"])).2 ∧
      (["q"] : List String).Perm ["q"]) :=
  ⟨by decide,
    cr_queries_are_composed_shuffles [⟨"q", 0, 10⟩] [⟨0, 10⟩] ["q"] "greedy" 10
      (1/100) ["q"] [⟨0, 0⟩] (by decide)⟩

set_option maxRecDepth 10000 in
unseal Rat.add Rat.sub Rat.mul Rat.inv in
/-- Claim C1: the competitive-ratio loop never resets the budget table - there
is no reset in the source, so depletion leaks from each trial into the next.
On a catalog with one advertiser (budget 10, bid 10 on the only query), the
first trial depletes the budget to 0 and every later trial starts from the
depleted table and earns nothing: the estimator returns `1/100` where the
claimed reset-before-each-trial semantics would give `1`. -/
theorem cr_never_resets_budgets :
    crTrials [⟨"q", 0, 10⟩] "greedy" 1 ⟨0, ["q"], [⟨0, 10⟩], 0⟩ =
      Except.ok ⟨12345, ["q"], [⟨0, 0⟩], 10⟩ ∧
    competitive_ratio [⟨"q", 0, 10⟩] [⟨0, 10⟩] ["q"] "greedy" 10 =
      Except.ok (1/100, ["q"], [⟨0, 0⟩]) := by
  constructor
  · decide
  · decide

/-- Claim C2: a query whose keyword has no registered bid is an error, not an
empty set of eligible bidders - `bidder_df.loc[[query]]` raises `KeyError` on
a keyword absent from the index, aborting the pass instead of contributing
zero revenue and continuing. -/
theorem unknown_keyword_raises :
    interestedBidders [⟨"apple", 0, 1⟩] "zzz" = Except.error Err.keyError ∧
    adwords [⟨"apple", 0, 1⟩] [⟨0, 5⟩] ["zzz"] "greedy" = Except.error Err.keyError := by
  constructor
  · rfl
  · decide

/-- Claim C9: catalog construction performs no validation and has no error
channel at all - `read_filter_data` returns a plain pair, and a bidder row
with `Budget = 0` is accepted into the budget table instead of being rejected
with a configuration error.  The MSVV spend-fraction division of line 131 is
then evaluated with the zero denominator: on the float64 operands it yields
nan with a `RuntimeWarning`, no exception, and the pass silently continues -
here the query is answered `(None, 0)` because budget 0 cannot cover the
bid of 2 (with a single bidder the sort is trivial, so this conclusion does
not depend on the scale value, which the embedding computes with the
`x / 0 = 0` convention where the source has nan).  The rejection the claim
requires never happens. -/
theorem nonpositive_budget_accepted :
    read_filter_data [⟨0, "k", 2, some 0⟩] = ([⟨"k", 0, 2⟩], [⟨0, 0⟩]) ∧
    msvv [⟨"k", 0, 2⟩] [⟨0, 0⟩] [⟨0, 0⟩] = Except.ok (none, 0) := by
  constructor
  · decide
  · rfl
